import Mathlib

/-!
# EVM chaincode: invocation dispatcher and event collector

A shallow embedding of `evmcc/evmcc.go` (`EvmChaincode.Invoke`, `getCode`, `account`,
`getCallerAddress`) and `evmcc/eventmanager/eventmanager.go` (`EventManager.Flush`,
`EventManager.Call`, `EventManager.Log`).

Go values are embedded as follows.

* A byte is a natural number; a Go `string` and the contents of a `[]byte` are lists of bytes.
* A `[]byte` argument keeps its backing array and its length apart, because the slice
  expression `s[0:8]` is checked against the capacity, not the length.
* A `nil` byte slice is `none`, a `nil` error is `none`.
* Every function that touches a collaborator (the chaincode stub, the account cache, the
  virtual machine, the event channel) returns, next to its result, the calls listed in
  `Effect` that it made, in the order it made them. Pure library functions and the reads
  `GetArgs` and `GetTxID` are not listed.
* Library functions whose code decides a claim (`hex.DecodeString`, `hex.EncodeToString`,
  `crypto.AddressFromBytes`, `crypto.ZeroAddress`) are written out; every other library
  function is a field of `World`, so the theorems hold whatever it computes.
* A run-time panic is an outcome of its own, distinct from every response.
-/

namespace Evmcc

/-- A byte, as a natural number below 256. -/
abbrev Byte := Nat

/-- The contents of a byte slice. -/
abbrev Bytes := List Byte

/-- A Go string: an immutable sequence of bytes. -/
abbrev GoString := List Byte

/-- The text of an error reported by a collaborator. -/
abbrev ErrText := String

deriving instance DecidableEq for Except

/-- Run-time panics raised by the Go runtime or by the code itself. -/
inductive Fault where
  /-- Index expression `a[i]` with `i` not below `len(a)`. -/
  | indexOutOfRange (index length : Nat)
  /-- Slice expression `s[0:hi]` with `hi` above `cap(s)`. -/
  | sliceBoundsOutOfRange (high capacity : Nat)
  /-- The block hash callback handed to `evm.NewState` was called. -/
  | blockHashCalled (height : Nat)
  deriving DecidableEq

/-- A Go `[]byte` value received from the stub: the backing array from the first element of the
slice on (its length is the capacity of the slice) and the length of the slice. -/
structure GoSlice where
  array : Bytes
  len : Nat
  len_le : len ≤ array.length
  deriving DecidableEq

namespace GoSlice

/-- The capacity `cap(s)`. -/
def cap (s : GoSlice) : Nat := s.array.length

/-- The conversion `string(s)`: the first `len(s)` bytes. -/
def str (s : GoSlice) : GoString := s.array.take s.len

/-- The conversion `string(s[0:hi])`; the slice expression panics when `hi` exceeds `cap(s)`. -/
def sliceTo (s : GoSlice) (hi : Nat) : Except Fault GoString :=
  if hi ≤ s.cap then .ok (s.array.take hi) else .error (.sliceBoundsOutOfRange hi s.cap)

/-- The slice `[]byte(b)` whose capacity equals its length. -/
def ofBytes (b : Bytes) : GoSlice := ⟨b, b.length, Nat.le_refl _⟩

end GoSlice

/-! ## `encoding/hex` -/

namespace hex

/-- Errors of `hex.DecodeString`. -/
inductive DecodeError where
  /-- The error `InvalidByteError(b)`. -/
  | invalidByte (b : Byte)
  /-- The error `ErrLength`: odd number of characters. -/
  | errLength
  deriving DecidableEq

/-- The table `"0123456789abcdef"`. -/
def hextable : List Byte := [48, 49, 50, 51, 52, 53, 54, 55, 56, 57, 97, 98, 99, 100, 101, 102]

/-- The function `hex.EncodeToString`: two characters of `hextable` per byte. -/
def EncodeToString : Bytes → GoString
  | [] => []
  | v :: rest => hextable.getD (v >>> 4) 0 :: hextable.getD (v &&& 0x0f) 0 :: EncodeToString rest

/-- The value of one hexadecimal character: `0`-`9`, `a`-`f` or `A`-`F`. -/
def fromHexChar (c : Nat) : Option Nat :=
  if 48 ≤ c ∧ c ≤ 57 then some (c - 48)
  else if 97 ≤ c ∧ c ≤ 102 then some (c - 97 + 10)
  else if 65 ≤ c ∧ c ≤ 70 then some (c - 65 + 10)
  else none

/-- The function `hex.DecodeString`: pairs of characters are decoded from the left, the first
invalid character of a pair is reported, and a trailing single character gives
`InvalidByteError` when it is invalid and `ErrLength` otherwise. -/
def DecodeString : GoString → Except DecodeError Bytes
  | [] => .ok []
  | [p] =>
    match fromHexChar p with
    | none => .error (.invalidByte p)
    | some _ => .error .errLength
  | p :: q :: rest =>
    match fromHexChar p with
    | none => .error (.invalidByte p)
    | some a =>
      match fromHexChar q with
      | none => .error (.invalidByte q)
      | some b =>
        match DecodeString rest with
        | .error e => .error e
        | .ok bs => .ok ((a <<< 4 ||| b) % 256 :: bs)

end hex

/-! ## `burrow/crypto` -/

namespace crypto

/-- The type `crypto.Address`, an array of 20 bytes. -/
structure Address where
  bytes : Bytes
  size : bytes.length = 20
  deriving DecidableEq

/-- The error of `AddressFromBytes`: the slice does not have 20 bytes. -/
structure AddressError where
  given : Bytes
  deriving DecidableEq

/-- The function `crypto.AddressFromBytes`: an error unless the slice has exactly 20 bytes. -/
def AddressFromBytes (bs : Bytes) : Except AddressError Address :=
  if h : bs.length = 20 then .ok ⟨bs, h⟩ else .error ⟨bs⟩

/-- The value `crypto.ZeroAddress`: twenty zero bytes. -/
def ZeroAddress : Address := ⟨List.replicate 20 0, by simp⟩

end crypto

/-! ## Events and the event collector (`evmcc/event`, `evmcc/eventmanager`) -/

/-- A value of type `map[string]string`; `none` is the nil map a declared variable starts as. -/
abbrev Context := Option (List (GoString × GoString))

/-- The record `event.Event` that the collector buffers. -/
structure Event where
  Address : GoString
  Data : GoString
  Topics : List GoString
  Context : Context
  deriving DecidableEq

/-- The log entry `exec.LogEvent` produced by the virtual machine. -/
structure LogEvent where
  Address : crypto.Address
  Data : Bytes
  Topics : List Bytes
  deriving DecidableEq

/-- The error returned by `EventManager.Log`: `"Failed to Marshal Topic: %s"`. -/
inductive LogError where
  | marshalTopic (err : ErrText)
  deriving DecidableEq

/-- The errors returned by `EventManager.Flush`. -/
inductive FlushError where
  /-- The error `"Failed to marshal event messages: %s"`. -/
  | marshalEvents (err : ErrText)
  /-- The error of `Stub.SetEvent`, returned as it is. -/
  | channel (err : ErrText)
  deriving DecidableEq

/-- One call on a collaborator, with what the collaborator answered. -/
inductive Effect where
  /-- The call `stub.GetCreator()`. -/
  | getCreator
  /-- The call `stub.GetState(key)`. -/
  | getState (key : GoString)
  /-- The call `evmCache.CreateAccount(addr)`. -/
  | createAccount (addr : crypto.Address)
  /-- The call `evmCache.SetPermission(addr, flags, value)`. -/
  | setPermission (addr : crypto.Address) (flags : Nat) (value : Bool)
  /-- The call `evmCache.GetCode(addr)`. -/
  | getCode (addr : crypto.Address)
  /-- The call `vm.Call(evmCache, eventSink, caller, callee, code, input, value, &gas)`. -/
  | vmCall (caller callee : crypto.Address) (code input : Bytes) (value gas : Nat)
  /-- The return of `vm.Call` with its output and its error. -/
  | vmReturn (output : Option Bytes) (err : Option ErrText)
  /-- The call `evmCache.InitCode(addr, code)`. -/
  | initCode (addr : crypto.Address) (code : Bytes)
  /-- The call `eventSink.Flush(name)` on a collector holding `cache`, and the error it
  returned. -/
  | flush (name : GoString) (cache : List Event) (err : Option FlushError)
  /-- The call `Stub.SetEvent(name, payload)` and the error it returned. -/
  | setEvent (name : GoString) (payload : Bytes) (err : Option ErrText)
  /-- The call `evmCache.Sync()` and the error it returned. -/
  | sync (err : Option ErrText)
  deriving DecidableEq

/-- A run of `vm.Call`, seen from the outside: the virtual machine calls `Log` and `Call` on the
event sink and goes on according to the error each returns, it may ask for a block hash, and
it ends with an output, an error and the account cache as it left it. -/
inductive EngineRun (σ : Type) where
  | done (output : Option Bytes) (err : Option ErrText) (cache : σ)
  | log (entry : LogEvent) (next : Option LogError → EngineRun σ)
  | call (next : Option LogError → EngineRun σ)
  | blockHash (height : Nat)

/-- The collaborators of one transaction, all but the argument list `stub.GetArgs()`, which
`Invoke` below takes next to them. The type `σ` is the state of the account cache
`evm.State`. -/
structure World (σ : Type) where
  /-- The call `stub.GetCreator()`. -/
  getCreator : Except ErrText Bytes
  /-- The call `stub.GetTxID()`. -/
  getTxID : GoString
  /-- The call `stub.GetState(key)`. -/
  getState : GoString → Except ErrText (Option Bytes)
  /-- The call `stub.SetEvent(name, payload)`. -/
  setEvent : GoString → Bytes → Option ErrText
  /-- The function `address.IdentityToAddr`. -/
  identityToAddr : Bytes → Except ErrText Bytes
  /-- The function `crypto.Nonce`. -/
  nonce : crypto.Address → Bytes → Bytes
  /-- The function `crypto.NewContractAddress`. -/
  newContractAddress : crypto.Address → Bytes → crypto.Address
  /-- The method `crypto.Address.String`. -/
  addressString : crypto.Address → GoString
  /-- The method `binary.HexBytes.String`. -/
  hexBytesString : Bytes → GoString
  /-- The method `binary.Word256.MarshalText`. -/
  marshalText : Bytes → Except ErrText GoString
  /-- The function `strings.ToLower`. -/
  toLower : GoString → GoString
  /-- The constants `permission.Call`, `permission.Send` and `permission.CreateContract`. -/
  permCall : Nat
  permSend : Nat
  permCreateContract : Nat
  /-- The call `json.Unmarshal(data, &ctx)` on a nil map `ctx`: the map afterwards and the
  error. -/
  jsonUnmarshal : Bytes → Context × Option ErrText
  /-- The call `json.Marshal(events)`. -/
  jsonMarshal : List Event → Except ErrText Bytes
  /-- The call `acm.Decode(bytes)` followed by `acct.Code.Bytes()`. -/
  acmDecodeCode : Bytes → Except ErrText Bytes
  /-- The cache `evm.NewState(statemanager.NewStateManager(stub), ...)`. -/
  newState : σ
  createAccount : crypto.Address → σ → σ
  setPermission : crypto.Address → Nat → Bool → σ → σ
  getCode : crypto.Address → σ → Bytes × σ
  initCode : crypto.Address → Bytes → σ → σ
  /-- The call `evmCache.Error()`. -/
  stateError : σ → Option ErrText
  /-- The call `evmCache.Sync()`. -/
  sync : σ → Option ErrText
  /-- The machine `evm.NewVM(newParams(), origin, nonce, evmLogger)` and its method
  `Call(cache, sink, caller, callee, code, input, value, &gas)`. -/
  vmCall : crypto.Address → Bytes → σ → crypto.Address → crypto.Address → Bytes → Bytes →
    Nat → Nat → EngineRun σ

/-- The struct `EventManager`; its field `Stub` is the stub of the world. -/
structure EventManager where
  EventCache : List Event
  Context : Context
  deriving DecidableEq

namespace EventManager

variable {σ : Type}

/-- The method `EventManager.Flush`. -/
def Flush (w : World σ) (evmgr : EventManager) (eventName : GoString) :
    Option FlushError × List Effect :=
  if evmgr.EventCache.length = 0 then (none, [])
  else
    match w.jsonMarshal evmgr.EventCache with
    | .error err => (some (.marshalEvents err), [])
    | .ok payload =>
      match w.setEvent eventName payload with
      | none => (none, [.setEvent eventName payload none])
      | some err => (some (.channel err), [.setEvent eventName payload (some err)])

/-- The method `EventManager.Call`, a no-op. -/
def Call (evmgr : EventManager) : Option LogError × EventManager := (none, evmgr)

/-- The loop of `EventManager.Log` over the topics, appending to `topics`. -/
def logTopics (w : World σ) : List Bytes → List GoString → Except ErrText (List GoString)
  | [], topics => .ok topics
  | topic :: rest, topics =>
    match w.marshalText topic with
    | .error err => .error err
    | .ok t => logTopics w rest (topics ++ [w.toLower t])

/-- The method `EventManager.Log`. -/
def Log (w : World σ) (evmgr : EventManager) (log : LogEvent) :
    Option LogError × EventManager :=
  let e : Event :=
    { Address := w.toLower (w.addressString log.Address)
      Data := w.toLower (w.hexBytesString log.Data)
      Topics := []
      Context := evmgr.Context }
  match logTopics w log.Topics [] with
  | .error err => (some (.marshalTopic err), evmgr)
  | .ok topics =>
    (none, { evmgr with EventCache := evmgr.EventCache ++ [{ e with Topics := topics }] })

end EventManager

/-- How a call of `vm.Call` ends. -/
inductive EngineResult (σ : Type) where
  | returned (output : Option Bytes) (err : Option ErrText) (cache : σ) (sink : EventManager)
  | panicked (fault : Fault)

/-- Runs the virtual machine against the event sink. -/
def runEngine {σ : Type} (w : World σ) : EngineRun σ → EventManager → EngineResult σ
  | .done output err cache, sink => .returned output err cache sink
  | .log entry next, sink => runEngine w (next (sink.Log w entry).1) (sink.Log w entry).2
  | .call next, sink => runEngine w (next sink.Call.1) sink.Call.2
  | .blockHash height, _ => .panicked (.blockHashCalled height)

/-! ## The dispatcher (`evmcc/evmcc.go`) -/

/-- The errors of `getCallerAddress`. -/
inductive CallerError where
  /-- The error `"failed to get creator: %s"`. -/
  | creator (err : ErrText)
  /-- The error `"fail to convert identity to address: %s"`. -/
  | identity (err : ErrText)
  /-- The error of `crypto.AddressFromBytes`, returned as it is. -/
  | address (err : crypto.AddressError)
  deriving DecidableEq

/-- The messages handed to `shim.Error`, one constructor per format string, with the values
formatted into it. -/
inductive Message where
  /-- The message `"expects 2 args, got %d : %s"`. -/
  | expectsTwoArgs (count : Nat) (first : GoString)
  /-- The message `"failed to decode callee address from %s: %s"`. -/
  | decodeCalleeAddress (arg : GoString) (err : hex.DecodeError)
  /-- The message `"failed to get callee address: %s"`. -/
  | getCalleeAddress (err : crypto.AddressError)
  /-- The message `"failed to get caller address: %s"`. -/
  | getCallerAddress (err : CallerError)
  /-- The message `"failed to decode input bytes: %s"`. -/
  | decodeInput (err : hex.DecodeError)
  /-- The message `"failed to create the contract account: %s "`. -/
  | createContractAccount (err : ErrText)
  /-- The message `"failed to set contract account permissions: %s "`. -/
  | setContractPermissions (err : ErrText)
  /-- The message `"failed to deploy code: %s"`. -/
  | deployCode (err : ErrText)
  /-- The message `"nil bytecode"`. -/
  | nilBytecode
  /-- The message `"failed to update contract account: %s"`. -/
  | updateContractAccount (err : ErrText)
  /-- The message `"error in Flush: %s"`. -/
  | errorInFlush (err : FlushError)
  /-- The message `"failed to sync: %s"`. -/
  | failedToSync (err : ErrText)
  /-- The message `"failed to retrieve contract code: %s"`. -/
  | retrieveContractCode (err : ErrText)
  /-- The message `"failed to execute contract: %s"`. -/
  | executeContract (err : ErrText)
  /-- The message `"failed to get contract account: %s"`. -/
  | getContractAccount (err : ErrText)
  /-- The message `"failed to decode contract account: %s"`. -/
  | decodeContractAccount (err : ErrText)
  /-- The message `"fail to convert identity to address: %s"`. -/
  | convertIdentity (err : CallerError)
  deriving DecidableEq

/-- The type `pb.Response`, built by `shim.Success(payload)` or `shim.Error(message)`. -/
inductive Response where
  | success (payload : Option Bytes)
  | error (message : Message)
  deriving DecidableEq

/-- What a call of `Invoke` ends in: a response, or a run-time panic. -/
inductive Outcome where
  | response (r : Response)
  | fault (f : Fault)
  deriving DecidableEq

/-- The outcome of a call together with the collaborator calls made, in order. -/
structure Result where
  outcome : Outcome
  trace : List Effect
  deriving DecidableEq

/-- The literal `"account"`. -/
def literalAccount : GoString := [97, 99, 99, 111, 117, 110, 116]

/-- The literal `"getCode"`. -/
def literalGetCode : GoString := [103, 101, 116, 67, 111, 100, 101]

/-- The length `len(b)` of a byte slice that may be nil. -/
def goLen : Option Bytes → Nat
  | none => 0
  | some b => b.length

/-- The gas budget `var gas uint64 = 1000000000`. -/
def gasBudget : Nat := 1000000000

variable {σ : Type}

/-- The constant `ContractPermFlags`. -/
def ContractPermFlags (w : World σ) : Nat := w.permCall ||| w.permSend ||| w.permCreateContract

/-- The function `getCallerAddress`. -/
def getCallerAddress (w : World σ) : Except CallerError crypto.Address :=
  match w.getCreator with
  | .error err => .error (.creator err)
  | .ok creatorBytes =>
    match w.identityToAddr creatorBytes with
    | .error err => .error (.identity err)
    | .ok callerAddr =>
      match crypto.AddressFromBytes callerAddr with
      | .error err => .error (.address err)
      | .ok addr => .ok addr

namespace EvmChaincode

/-- The method `EvmChaincode.account`. -/
def account (w : World σ) : Result :=
  match getCallerAddress w with
  | .error err => ⟨.response (.error (.convertIdentity err)), [.getCreator]⟩
  | .ok callerAddr => ⟨.response (.success (some (w.addressString callerAddr))), [.getCreator]⟩

/-- The method `EvmChaincode.getCode`. -/
def getCode (w : World σ) (address : GoString) : Result :=
  match hex.DecodeString address with
  | .error err => ⟨.response (.error (.decodeCalleeAddress address err)), []⟩
  | .ok c =>
    match crypto.AddressFromBytes c with
    | .error err => ⟨.response (.error (.getCalleeAddress err)), []⟩
    | .ok calleeAddr =>
      match w.getState (w.toLower (w.addressString calleeAddr)) with
      | .error err =>
        ⟨.response (.error (.getContractAccount err)),
          [.getState (w.toLower (w.addressString calleeAddr))]⟩
      | .ok acctBytes =>
        if goLen acctBytes = 0 then
          ⟨.response (.success acctBytes), [.getState (w.toLower (w.addressString calleeAddr))]⟩
        else
          match w.acmDecodeCode (acctBytes.getD []) with
          | .error err =>
            ⟨.response (.error (.decodeContractAccount err)),
              [.getState (w.toLower (w.addressString calleeAddr))]⟩
          | .ok code =>
            ⟨.response (.success (some (hex.EncodeToString code))),
              [.getState (w.toLower (w.addressString calleeAddr))]⟩

/-- The end of both branches of `Invoke` (lines 148-157 and 174-184, the same but for the
event name and the payload): flush the collector under `name`, then synchronise the cache,
then answer with `payload`. The list `before` holds the calls made so far. -/
def flushAndSync (w : World σ) (before : List Effect) (sink : EventManager) (name : GoString)
    (cache : σ) (payload : Option Bytes) : Result :=
  match sink.Flush w name with
  | (some err, emitted) =>
    ⟨.response (.error (.errorInFlush err)),
      before ++ .flush name sink.EventCache (some err) :: emitted⟩
  | (none, emitted) =>
    match w.sync cache with
    | some evmErr =>
      ⟨.response (.error (.failedToSync evmErr)),
        before ++ .flush name sink.EventCache none :: emitted ++ [.sync (some evmErr)]⟩
    | none =>
      ⟨.response (.success payload),
        before ++ .flush name sink.EventCache none :: emitted ++ [.sync none]⟩

/-- The branch `calleeAddr == crypto.ZeroAddress` of `Invoke`: deploy a contract. -/
def deployContract (w : World σ) (eventSink : EventManager) (callerAddr : crypto.Address)
    (nonce input : Bytes) : Result :=
  let contractAddr := w.newContractAddress callerAddr nonce
  let created := w.createAccount contractAddr w.newState
  match w.stateError created with
  | some evmErr =>
    ⟨.response (.error (.createContractAccount evmErr)),
      [.getCreator, .createAccount contractAddr]⟩
  | none =>
    let permitted := w.setPermission contractAddr (ContractPermFlags w) true created
    match w.stateError permitted with
    | some evmErr =>
      ⟨.response (.error (.setContractPermissions evmErr)),
        [.getCreator, .createAccount contractAddr,
          .setPermission contractAddr (ContractPermFlags w) true]⟩
    | none =>
      match runEngine w
          (w.vmCall callerAddr nonce permitted callerAddr contractAddr input input 0 gasBudget)
          eventSink with
      | .panicked f =>
        ⟨.fault f,
          [.getCreator, .createAccount contractAddr,
            .setPermission contractAddr (ContractPermFlags w) true,
            .vmCall callerAddr contractAddr input input 0 gasBudget]⟩
      | .returned rtCode evmErr executed sink =>
        match evmErr with
        | some err =>
          ⟨.response (.error (.deployCode err)),
            [.getCreator, .createAccount contractAddr,
              .setPermission contractAddr (ContractPermFlags w) true,
              .vmCall callerAddr contractAddr input input 0 gasBudget,
              .vmReturn rtCode (some err)]⟩
        | none =>
          match rtCode with
          | none =>
            ⟨.response (.error .nilBytecode),
              [.getCreator, .createAccount contractAddr,
                .setPermission contractAddr (ContractPermFlags w) true,
                .vmCall callerAddr contractAddr input input 0 gasBudget,
                .vmReturn none none]⟩
          | some code =>
            let initialised := w.initCode contractAddr code executed
            match w.stateError initialised with
            | some err =>
              ⟨.response (.error (.updateContractAccount err)),
                [.getCreator, .createAccount contractAddr,
                  .setPermission contractAddr (ContractPermFlags w) true,
                  .vmCall callerAddr contractAddr input input 0 gasBudget,
                  .vmReturn (some code) none, .initCode contractAddr code]⟩
            | none =>
              flushAndSync w
                [.getCreator, .createAccount contractAddr,
                  .setPermission contractAddr (ContractPermFlags w) true,
                  .vmCall callerAddr contractAddr input input 0 gasBudget,
                  .vmReturn (some code) none, .initCode contractAddr code]
                sink (hex.EncodeToString (contractAddr.bytes.take 4)) initialised
                (some (hex.EncodeToString contractAddr.bytes))

/-- The branch `else` of `Invoke`: call the contract at `calleeAddr`. The event name is
`string(args[1][0:8])`, taken from the undecoded second argument `arg1`. -/
def invokeContract (w : World σ) (eventSink : EventManager)
    (callerAddr calleeAddr : crypto.Address) (nonce : Bytes) (arg1 : GoSlice) (input : Bytes) :
    Result :=
  let calleeCode := (w.getCode calleeAddr w.newState).1
  let looked := (w.getCode calleeAddr w.newState).2
  match w.stateError looked with
  | some evmErr =>
    ⟨.response (.error (.retrieveContractCode evmErr)), [.getCreator, .getCode calleeAddr]⟩
  | none =>
    match runEngine w
        (w.vmCall callerAddr nonce looked callerAddr calleeAddr calleeCode input 0 gasBudget)
        eventSink with
    | .panicked f =>
      ⟨.fault f,
        [.getCreator, .getCode calleeAddr,
          .vmCall callerAddr calleeAddr calleeCode input 0 gasBudget]⟩
    | .returned output evmErr executed sink =>
      match evmErr with
      | some err =>
        ⟨.response (.error (.executeContract err)),
          [.getCreator, .getCode calleeAddr,
            .vmCall callerAddr calleeAddr calleeCode input 0 gasBudget,
            .vmReturn output (some err)]⟩
      | none =>
        match arg1.sliceTo 8 with
        | .error f =>
          ⟨.fault f,
            [.getCreator, .getCode calleeAddr,
              .vmCall callerAddr calleeAddr calleeCode input 0 gasBudget,
              .vmReturn output none]⟩
        | .ok name =>
          flushAndSync w
            [.getCreator, .getCode calleeAddr,
              .vmCall callerAddr calleeAddr calleeCode input 0 gasBudget,
              .vmReturn output none]
            sink name executed output

/-- The body of `Invoke` after the switch on the number of arguments (from the test for
`"getCode"` on), for a request with first argument `arg0`, second argument `arg1` and context
map `ctx`. -/
def invokeTx (w : World σ) (ctx : Context) (arg0 arg1 : GoSlice) : Result :=
  if arg0.str = literalGetCode then getCode w arg1.str
  else
    match hex.DecodeString arg0.str with
    | .error err => ⟨.response (.error (.decodeCalleeAddress arg0.str err)), []⟩
    | .ok c =>
      match crypto.AddressFromBytes c with
      | .error err => ⟨.response (.error (.getCalleeAddress err)), []⟩
      | .ok calleeAddr =>
        match getCallerAddress w with
        | .error err => ⟨.response (.error (.getCallerAddress err)), [.getCreator]⟩
        | .ok callerAddr =>
          match hex.DecodeString arg1.str with
          | .error err => ⟨.response (.error (.decodeInput err)), [.getCreator]⟩
          | .ok input =>
            if calleeAddr = crypto.ZeroAddress then
              deployContract w ⟨[], ctx⟩ callerAddr (w.nonce callerAddr w.getTxID) input
            else
              invokeContract w ⟨[], ctx⟩ callerAddr calleeAddr (w.nonce callerAddr w.getTxID)
                arg1 input

/-- The method `EvmChaincode.Invoke` on a stub whose `GetArgs()` is `args`. -/
def Invoke (w : World σ) (args : List GoSlice) : Result :=
  if args.length = 1 ∧ args.head?.map GoSlice.str = some literalAccount then
    account w
  else
    match args with
    | [arg0, arg1] => invokeTx w none arg0 arg1
    | [arg0, arg1, arg2] => invokeTx w (w.jsonUnmarshal arg2.str).1 arg0 arg1
    | [] => ⟨.fault (.indexOutOfRange 0 0), []⟩
    | arg0 :: _ => ⟨.response (.error (.expectsTwoArgs args.length arg0.str)), []⟩

end EvmChaincode

/-! ## Sample collaborators -/

/-- An address of twenty bytes `b`. -/
def sampleAddress (b : Byte) : crypto.Address := ⟨List.replicate 20 b, by simp⟩

/-- A world over a cache without state: every collaborator succeeds, the creator resolves to
the address of twenty bytes `0x11`, a new contract gets the address of twenty bytes `0xab`,
text forms are hexadecimal, and the virtual machine writes the log entries `logs` one after the
other, stops with an error as soon as the sink returns one, and otherwise returns `output`
and the error `vmErr`. The parser of the context map leaves `parsed` behind. -/
def sampleWorld (logs : List LogEvent) (output : Option Bytes)
    (vmErr : Option ErrText) (parsed : Context × Option ErrText) : World Unit where
  getCreator := .ok [1]
  getTxID := [116, 120]
  getState := fun _ => .ok none
  setEvent := fun _ _ => none
  identityToAddr := fun _ => .ok (List.replicate 20 0x11)
  nonce := fun _ tx => tx
  newContractAddress := fun _ _ => sampleAddress 0xab
  addressString := fun a => hex.EncodeToString a.bytes
  hexBytesString := hex.EncodeToString
  marshalText := fun t => .ok (hex.EncodeToString t)
  toLower := id
  permCall := 4
  permSend := 2
  permCreateContract := 8
  jsonUnmarshal := fun _ => parsed
  jsonMarshal := fun events => .ok (events.map (fun e => e.Address.length))
  acmDecodeCode := fun b => .ok b
  newState := ()
  createAccount := fun _ _ => ()
  setPermission := fun _ _ _ _ => ()
  getCode := fun _ _ => ([0x60], ())
  initCode := fun _ _ _ => ()
  stateError := fun _ => none
  sync := fun _ => none
  vmCall := fun _ _ _ _ _ _ _ _ _ =>
    logs.foldr (fun entry rest => .log entry (fun r => if r.isSome then
      .done none (some "log failed") () else rest)) (.done output vmErr ())

/-- The text `"00"` repeated twenty times: the zero address in hexadecimal. -/
def zeroAddressHex : Bytes := List.replicate 40 48

/-- The text `"22"` repeated twenty times: a non-zero address in hexadecimal. -/
def otherAddressHex : Bytes := List.replicate 40 50

/-- The text `"a9059cbb00"`. -/
def transferInput : Bytes := [97, 57, 48, 53, 57, 99, 98, 98, 48, 48]

/-! ## Predicates on results, and sample requests -/

/-- The calls that commit something: a flush of the collector, an emission on the event
channel, a synchronisation of the cache. -/
def Effect.commits : Effect → Bool
  | .flush _ _ _ => true
  | .setEvent _ _ _ => true
  | .sync _ => true
  | _ => false

/-- The property of a result that the abort claim is about. -/
def AbortClean (r : Result) : Prop :=
  ((∃ output err, Effect.vmReturn output (some err) ∈ r.trace) ∨
      (Effect.vmReturn none none ∈ r.trace ∧ ∃ addr, Effect.createAccount addr ∈ r.trace)) →
    (∃ message, r.outcome = .response (.error message)) ∧ ∀ e ∈ r.trace, e.commits = false

/-- Whether the call is `eventSink.Flush`. -/
def Effect.isFlush : Effect → Bool
  | .flush _ _ _ => true
  | _ => false

/-- Whether the call is `evmCache.Sync`. -/
def Effect.isSync : Effect → Bool
  | .sync _ => true
  | _ => false

/-- The property of a result that the commit ordering claim is about. -/
def CommitOrdered (r : Result) : Prop :=
  r.trace.countP Effect.isFlush ≤ 1 ∧ r.trace.countP Effect.isSync ≤ 1 ∧
    (∀ pre post err, r.trace = pre ++ Effect.sync err :: post →
      (∃ output, Effect.vmReturn output none ∈ pre) ∧
        ∃ name cache, Effect.flush name cache none ∈ pre) ∧
    (∀ name cache err, Effect.flush name cache (some err) ∈ r.trace →
      (∃ message, r.outcome = .response (.error message)) ∧
        ∀ syncErr, Effect.sync syncErr ∉ r.trace)

/-- The context map that `Invoke` hands to the collector: nil for two arguments, what the
parser leaves behind for three. -/
def contextOf (w : World σ) : List GoSlice → Context
  | [_, _, arg2] => (w.jsonUnmarshal arg2.str).1
  | _ => none

/-- The property that every flushed record carries the context `ctx`. -/
def ContextAttached (ctx : Context) (r : Result) : Prop :=
  ∀ name cache err, Effect.flush name cache err ∈ r.trace → ∀ ev ∈ cache, ev.Context = ctx

/-- The lower-case form of an ASCII letter; every other byte is left as it is. -/
def asciiLower (c : Nat) : Nat := if 65 ≤ c ∧ c ≤ 90 then c + 32 else c

/-- A log entry written by the contract at the address of twenty bytes `0x22`. -/
def sampleLog : LogEvent := ⟨sampleAddress 0x22, [1], [[2]]⟩

/-- The record that the collector of `sampleWorld` buffers for `sampleLog` under the context
`ctx`. -/
def sampleRecord (ctx : Context) : Event :=
  { Address := List.replicate 40 50, Data := [48, 49], Topics := [[48, 50]], Context := ctx }

/-- The request `["2222...22", "a9059cbb00"]`: a call of the contract at `0x2222...22`. -/
def callRequest : List GoSlice := [.ofBytes otherAddressHex, .ofBytes transferInput]

/-- The request `["0000...00", "a9059cbb00"]`: a deployment. -/
def deployRequest : List GoSlice := [.ofBytes zeroAddressHex, .ofBytes transferInput]

/-- The request `["2222...22", ""]`: a call with empty input. -/
def emptyInputRequest : List GoSlice := [.ofBytes otherAddressHex, .ofBytes []]

/-- The text `{"a":"b","c":1}`, whose second entry is a number where a string is expected. -/
def illTypedContext : Bytes :=
  [123, 34, 97, 34, 58, 34, 98, 34, 44, 34, 99, 34, 58, 49, 125]

/-- What `json.Unmarshal` makes of `illTypedContext` for a `map[string]string`: the map
holds `a = "b"` and `c = ""` and the error is an `UnmarshalTypeError`. -/
def illTypedParse : Context × Option ErrText :=
  (some [([97], [98]), ([99], [])],
    some "json: cannot unmarshal number into Go value of type string")

/-- A world like `sampleWorld` in which no topic converts to text. -/
def failingTopicWorld : World Unit :=
  { sampleWorld [] none none (none, none) with
    marshalText := fun _ => .error "invalid topic" }

/-- The text `"ABABABAB"` followed by 32 characters `"0"`. -/
def upperAddressHex : Bytes := [65, 66, 65, 66, 65, 66, 65, 66] ++ List.replicate 32 48

/-- The text `"abABabAB"` followed by 32 characters `"0"`. -/
def mixedAddressHex : Bytes := [97, 98, 65, 66, 97, 98, 65, 66] ++ List.replicate 32 48

/-! ## Lemmas on the traces -/

theorem flush_emitted (w : World σ) (sink : EventManager) (name : GoString) :
    (sink.Flush w name).2 = [] ∨
      ∃ payload, (sink.Flush w name).2 = [.setEvent name payload (w.setEvent name payload)] := by
  unfold EventManager.Flush
  split
  · simp
  · split
    · simp
    · rename_i payload _
      split <;> rename_i h <;> simp [h]

theorem account_trace (w : World σ) : (EvmChaincode.account w).trace = [.getCreator] := by
  unfold EvmChaincode.account
  split <;> rfl

theorem getCode_trace (w : World σ) (address : GoString) :
    ∀ e ∈ (EvmChaincode.getCode w address).trace, ∃ key, e = .getState key := by
  unfold EvmChaincode.getCode
  repeat' split
  all_goals simp

theorem flush_emitted_commits (w : World σ) (sink : EventManager) (name : GoString) :
    ∀ e ∈ (sink.Flush w name).2, e.commits = true := by
  rcases flush_emitted w sink name with h | ⟨payload, h⟩ <;> simp [h, Effect.commits]

theorem flushAndSync_mem (w : World σ) (before : List Effect) (sink : EventManager)
    (name : GoString) (cache : σ) (payload : Option Bytes) (e : Effect)
    (h : e ∈ (EvmChaincode.flushAndSync w before sink name cache payload).trace) :
    e ∈ before ∨ e.commits = true := by
  have hf := flush_emitted_commits w sink name
  unfold EvmChaincode.flushAndSync at h
  split at h
  · rename_i err emitted heq
    rw [heq] at hf
    simp only [List.mem_append, List.mem_cons] at h
    rcases h with h | h | h
    · exact Or.inl h
    · exact Or.inr (by rw [h]; rfl)
    · exact Or.inr (hf e h)
  · rename_i emitted heq
    rw [heq] at hf
    split at h <;>
    · simp only [List.mem_append, List.mem_cons, List.mem_singleton, List.not_mem_nil,
        or_false] at h
      rcases h with (h | h | h) | h
      · exact Or.inl h
      · exact Or.inr (by rw [h]; rfl)
      · exact Or.inr (hf e h)
      · exact Or.inr (by rw [h]; rfl)

theorem deploy_abortClean (w : World σ) (sink : EventManager) (caller : crypto.Address)
    (nonce input : Bytes) : AbortClean (EvmChaincode.deployContract w sink caller nonce input) := by
  unfold AbortClean EvmChaincode.deployContract
  simp only []
  repeat' split
  all_goals try simp [Effect.commits]
  intro h
  exfalso
  rcases h with ⟨o, e, h⟩ | ⟨h, _⟩ <;>
  · have h2 := flushAndSync_mem _ _ _ _ _ _ _ h
    simp [Effect.commits] at h2

theorem invoke_abortClean (w : World σ) (sink : EventManager) (caller callee : crypto.Address)
    (nonce : Bytes) (arg1 : GoSlice) (input : Bytes) :
    AbortClean (EvmChaincode.invokeContract w sink caller callee nonce arg1 input) := by
  unfold AbortClean EvmChaincode.invokeContract
  simp only []
  repeat' split
  all_goals try simp [Effect.commits]
  intro h
  exfalso
  rcases h with ⟨o, e, h⟩ | ⟨h, a, ha⟩
  · have h2 := flushAndSync_mem _ _ _ _ _ _ _ h
    simp [Effect.commits] at h2
  · have h2 := flushAndSync_mem _ _ _ _ _ _ _ ha
    simp [Effect.commits] at h2

theorem invokeTx_abortClean (w : World σ) (ctx : Context) (arg0 arg1 : GoSlice) :
    AbortClean (EvmChaincode.invokeTx w ctx arg0 arg1) := by
  unfold EvmChaincode.invokeTx
  split
  · intro h
    exfalso
    rcases h with ⟨o, e, h⟩ | ⟨h, _⟩ <;>
    · obtain ⟨k, hk⟩ := getCode_trace w _ _ h
      simp at hk
  · repeat' split
    all_goals first
      | exact deploy_abortClean _ _ _ _ _
      | exact invoke_abortClean _ _ _ _ _ _ _
      | simp [AbortClean]

theorem Invoke_abortClean (w : World σ) (args : List GoSlice) :
    AbortClean (EvmChaincode.Invoke w args) := by
  unfold EvmChaincode.Invoke
  split
  · simp [AbortClean, account_trace]
  · split
    · exact invokeTx_abortClean _ _ _ _
    · exact invokeTx_abortClean _ _ _ _
    · simp [AbortClean]
    · simp [AbortClean]

/-! ### Commit ordering -/

theorem split_before_last {α : Type} (p : α → Prop) (xs pre post : List α) (s last : α)
    (hxs : ∀ x ∈ xs, ¬ p x) (hs : p s) (h : pre ++ s :: post = xs ++ [last]) : pre = xs := by
  induction xs generalizing pre with
  | nil =>
    cases pre with
    | nil => rfl
    | cons y ys => simp at h
  | cons x xs ih =>
    cases pre with
    | nil =>
      simp at h
      exact absurd hs (h.1 ▸ hxs x (List.mem_cons_self _ _))
    | cons y ys =>
      simp only [List.cons_append, List.cons.injEq] at h
      rw [h.1, ih ys (fun z hz => hxs z (List.mem_cons_of_mem _ hz)) h.2]

theorem isFlush_of_quiet (e : Effect) (h : e.commits = false) : e.isFlush = false := by
  cases e <;> first | rfl | simp [Effect.commits] at h

theorem isSync_of_quiet (e : Effect) (h : e.commits = false) : e.isSync = false := by
  cases e <;> first | rfl | simp [Effect.commits] at h

theorem countP_isFlush_quiet (t : List Effect) (h : ∀ e ∈ t, e.commits = false) :
    t.countP Effect.isFlush = 0 := by
  rw [List.countP_eq_zero]
  intro e he
  simp [isFlush_of_quiet e (h e he)]

theorem countP_isSync_quiet (t : List Effect) (h : ∀ e ∈ t, e.commits = false) :
    t.countP Effect.isSync = 0 := by
  rw [List.countP_eq_zero]
  intro e he
  simp [isSync_of_quiet e (h e he)]

theorem quiet_commitOrdered (r : Result) (h : ∀ e ∈ r.trace, e.commits = false) :
    CommitOrdered r := by
  have hflush := countP_isFlush_quiet r.trace h
  have hsync := countP_isSync_quiet r.trace h
  refine ⟨by omega, by omega, ?_, ?_⟩
  · intro pre post err heq
    have := h (.sync err) (by rw [heq]; simp)
    simp [Effect.commits] at this
  · intro name cache err hmem
    have := h _ hmem
    simp [Effect.commits] at this

theorem flush_emitted_setEvent (w : World σ) (sink : EventManager) (name : GoString) :
    ∀ e ∈ (sink.Flush w name).2, ∃ payload err, e = .setEvent name payload err := by
  rcases flush_emitted w sink name with h | ⟨payload, h⟩ <;> simp [h]

theorem emitted_facts (name : GoString) (emitted : List Effect)
    (h : ∀ e ∈ emitted, ∃ p r, e = Effect.setEvent name p r) :
    emitted.countP Effect.isFlush = 0 ∧ emitted.countP Effect.isSync = 0 ∧
      (∀ e ∈ emitted, e.isSync = false) ∧
      (∀ err, Effect.sync err ∉ emitted) ∧ ∀ n c err, Effect.flush n c err ∉ emitted := by
  refine ⟨?_, ?_, ?_, ?_, ?_⟩
  · rw [List.countP_eq_zero]
    intro e he
    obtain ⟨p, r, hpr⟩ := h e he
    simp [hpr, Effect.isFlush]
  · rw [List.countP_eq_zero]
    intro e he
    obtain ⟨p, r, hpr⟩ := h e he
    simp [hpr, Effect.isSync]
  · intro e he
    obtain ⟨p, r, hpr⟩ := h e he
    simp [hpr, Effect.isSync]
  · intro err he
    obtain ⟨p, r, hpr⟩ := h _ he
    simp at hpr
  · intro n c err he
    obtain ⟨p, r, hpr⟩ := h _ he
    simp at hpr

/-- A trace that ends in a failed flush keeps the commit order. -/
theorem flushFailed_commitOrdered (before emitted : List Effect) (name : GoString)
    (cache : List Event) (err : FlushError) (message : Message)
    (hquiet : ∀ e ∈ before, e.commits = false)
    (hem : ∀ e ∈ emitted, ∃ p r, e = Effect.setEvent name p r) :
    CommitOrdered ⟨.response (.error message),
      before ++ Effect.flush name cache (some err) :: emitted⟩ := by
  obtain ⟨hef, hes, _, hens, henf⟩ := emitted_facts name emitted hem
  have hbf := countP_isFlush_quiet before hquiet
  have hbs := countP_isSync_quiet before hquiet
  have hnosync : ∀ serr, Effect.sync serr ∉ before := by
    intro serr he
    have := hquiet _ he
    simp [Effect.commits] at this
  refine ⟨?_, ?_, ?_, ?_⟩
  · simp [List.countP_append, List.countP_cons, hbf, hef, Effect.isFlush]
  · simp [List.countP_append, List.countP_cons, hbs, hes, Effect.isSync]
  · intro pre post serr h
    have hmem : Effect.sync serr ∈ pre ++ Effect.sync serr :: post := by simp
    rw [← h] at hmem
    simp [hnosync, hens] at hmem
  · intro n c ferr _
    refine ⟨⟨_, rfl⟩, ?_⟩
    intro serr hmem
    simp [hnosync, hens] at hmem

/-- A trace that ends in a flush without error and a synchronisation keeps the commit
order. -/
theorem synced_commitOrdered (before emitted : List Effect) (name : GoString)
    (cache : List Event) (syncErr : Option ErrText) (outcome : Outcome)
    (hquiet : ∀ e ∈ before, e.commits = false)
    (hret : ∃ output, Effect.vmReturn output none ∈ before)
    (hem : ∀ e ∈ emitted, ∃ p r, e = Effect.setEvent name p r) :
    CommitOrdered ⟨outcome,
      before ++ Effect.flush name cache none :: emitted ++ [Effect.sync syncErr]⟩ := by
  obtain ⟨hef, hes, hesf, hens, henf⟩ := emitted_facts name emitted hem
  have hbf := countP_isFlush_quiet before hquiet
  have hbs := countP_isSync_quiet before hquiet
  have hnoflush : ∀ n c err, Effect.flush n c err ∉ before := by
    intro n c err he
    have := hquiet _ he
    simp [Effect.commits] at this
  obtain ⟨output, hout⟩ := hret
  refine ⟨?_, ?_, ?_, ?_⟩
  · simp [List.countP_append, List.countP_cons, hbf, hef, Effect.isFlush]
  · simp [List.countP_append, List.countP_cons, hbs, hes, Effect.isSync]
  · intro pre post serr h
    have hpre := split_before_last (fun e => e.isSync = true)
      (before ++ Effect.flush name cache none :: emitted) pre post
      (Effect.sync serr) (Effect.sync syncErr)
      (by
        intro x hx
        simp only [List.mem_append, List.mem_cons] at hx
        rcases hx with hx | hx | hx
        · simp [isSync_of_quiet x (hquiet x hx)]
        · simp [hx, Effect.isSync]
        · simp [hesf x hx])
      (by rfl) h.symm
    subst hpre
    exact ⟨⟨output, by simp [hout]⟩, ⟨name, cache, by simp⟩⟩
  · intro n c ferr hmem
    simp [hnoflush, henf] at hmem

theorem flushAndSync_commitOrdered (w : World σ) (before : List Effect) (sink : EventManager)
    (name : GoString) (cache : σ) (payload : Option Bytes)
    (hquiet : ∀ e ∈ before, e.commits = false)
    (hret : ∃ output, Effect.vmReturn output none ∈ before) :
    CommitOrdered (EvmChaincode.flushAndSync w before sink name cache payload) := by
  have hem := flush_emitted_setEvent w sink name
  unfold EvmChaincode.flushAndSync
  split
  · rename_i err emitted heq
    rw [heq] at hem
    exact flushFailed_commitOrdered _ _ _ _ _ _ hquiet hem
  · rename_i emitted heq
    rw [heq] at hem
    split
    · exact synced_commitOrdered _ _ _ _ _ _ hquiet hret hem
    · exact synced_commitOrdered _ _ _ _ _ _ hquiet hret hem

theorem deploy_commitOrdered (w : World σ) (sink : EventManager) (caller : crypto.Address)
    (nonce input : Bytes) :
    CommitOrdered (EvmChaincode.deployContract w sink caller nonce input) := by
  unfold EvmChaincode.deployContract
  simp only []
  repeat' split
  all_goals first
    | exact flushAndSync_commitOrdered _ _ _ _ _ _ (by simp [Effect.commits])
        ⟨_, by repeat (first | exact List.mem_cons_self _ _ | apply List.mem_cons_of_mem)⟩
    | exact quiet_commitOrdered _ (by simp [Effect.commits])

theorem invoke_commitOrdered (w : World σ) (sink : EventManager)
    (caller callee : crypto.Address) (nonce : Bytes) (arg1 : GoSlice) (input : Bytes) :
    CommitOrdered (EvmChaincode.invokeContract w sink caller callee nonce arg1 input) := by
  unfold EvmChaincode.invokeContract
  simp only []
  repeat' split
  all_goals first
    | exact flushAndSync_commitOrdered _ _ _ _ _ _ (by simp [Effect.commits])
        ⟨_, by repeat (first | exact List.mem_cons_self _ _ | apply List.mem_cons_of_mem)⟩
    | exact quiet_commitOrdered _ (by simp [Effect.commits])

theorem getCode_quiet (w : World σ) (address : GoString) :
    ∀ e ∈ (EvmChaincode.getCode w address).trace, e.commits = false := by
  intro e he
  obtain ⟨key, hk⟩ := getCode_trace w address e he
  rw [hk]
  rfl

theorem invokeTx_commitOrdered (w : World σ) (ctx : Context) (arg0 arg1 : GoSlice) :
    CommitOrdered (EvmChaincode.invokeTx w ctx arg0 arg1) := by
  unfold EvmChaincode.invokeTx
  split
  · exact quiet_commitOrdered _ (getCode_quiet w _)
  · repeat' split
    all_goals first
      | exact deploy_commitOrdered _ _ _ _ _
      | exact invoke_commitOrdered _ _ _ _ _ _ _
      | exact quiet_commitOrdered _ (by simp [Effect.commits])

theorem Invoke_commitOrdered (w : World σ) (args : List GoSlice) :
    CommitOrdered (EvmChaincode.Invoke w args) := by
  unfold EvmChaincode.Invoke
  split
  · exact quiet_commitOrdered _ (by simp [account_trace, Effect.commits])
  · split
    · exact invokeTx_commitOrdered _ _ _ _
    · exact invokeTx_commitOrdered _ _ _ _
    · exact quiet_commitOrdered _ (by simp)
    · exact quiet_commitOrdered _ (by simp)

/-! ### Facts on `encoding/hex` and on the classification of the arguments -/

theorem EncodeToString_length (bs : Bytes) : (hex.EncodeToString bs).length = 2 * bs.length := by
  induction bs with
  | nil => rfl
  | cons v rest ih => simp [hex.EncodeToString, ih]; omega

theorem EncodeToString_take (bs : Bytes) (n : Nat) :
    (hex.EncodeToString bs).take (2 * n) = hex.EncodeToString (bs.take n) := by
  induction bs generalizing n with
  | nil => simp [hex.EncodeToString]
  | cons v rest ih =>
    cases n with
    | zero => simp [hex.EncodeToString]
    | succ m =>
      have h : 2 * (m + 1) = (2 * m + 1) + 1 := by omega
      rw [h]
      simp [hex.EncodeToString, ih]

theorem getCode_not_hex : hex.DecodeString literalGetCode = .error (.invalidByte 103) := by
  decide

theorem str_ne_getCode (arg : GoSlice) (c : Bytes) (h : hex.DecodeString arg.str = .ok c) :
    arg.str ≠ literalGetCode := by
  intro heq
  rw [heq, getCode_not_hex] at h
  cases h

theorem AddressFromBytes_zero :
    crypto.AddressFromBytes (List.replicate 20 0) = .ok crypto.ZeroAddress := by
  decide

theorem AddressFromBytes_ok (c : Bytes) (a : crypto.Address)
    (h : crypto.AddressFromBytes c = .ok a) : a.bytes = c := by
  unfold crypto.AddressFromBytes at h
  split at h
  · cases h
    rfl
  · cases h

theorem Invoke_two_or_three (w : World σ) (arg0 arg1 : GoSlice) (rest : List GoSlice)
    (hrest : rest.length ≤ 1) :
    EvmChaincode.Invoke w (arg0 :: arg1 :: rest) =
      EvmChaincode.invokeTx w (contextOf w (arg0 :: arg1 :: rest)) arg0 arg1 := by
  unfold EvmChaincode.Invoke
  match rest, hrest with
  | [], _ => simp [contextOf]
  | [arg2], _ => simp [contextOf]

theorem flushAndSync_success (w : World σ) (before : List Effect) (sink : EventManager)
    (name : GoString) (cache : σ) (payload : Option Bytes)
    (hflush : (sink.Flush w name).1 = none) (hsync : w.sync cache = none) :
    EvmChaincode.flushAndSync w before sink name cache payload =
      ⟨.response (.success payload),
        before ++ .flush name sink.EventCache none :: (sink.Flush w name).2 ++ [.sync none]⟩ := by
  unfold EvmChaincode.flushAndSync
  rcases hF : sink.Flush w name with ⟨ferr, emitted⟩
  rw [hF] at hflush
  simp only at hflush
  subst hflush
  simp [hsync]

theorem flushAndSync_flush_name (w : World σ) (before : List Effect) (sink : EventManager)
    (name : GoString) (cache : σ) (payload : Option Bytes)
    (hquiet : ∀ e ∈ before, e.commits = false) (n : GoString) (c : List Event)
    (err : Option FlushError)
    (h : Effect.flush n c err ∈ (EvmChaincode.flushAndSync w before sink name cache payload).trace) :
    n = name ∧ c = sink.EventCache := by
  have hem := flush_emitted_setEvent w sink name
  unfold EvmChaincode.flushAndSync at h
  have hb : Effect.flush n c err ∉ before := by
    intro hmem
    have := hquiet _ hmem
    simp [Effect.commits] at this
  split at h
  · rename_i ferr emitted heq
    rw [heq] at hem
    simp only [List.mem_append, List.mem_cons] at h
    rcases h with h | h | h
    · exact absurd h hb
    · simp at h
      exact ⟨h.1, h.2.1⟩
    · obtain ⟨p, r, hpr⟩ := hem _ h
      simp at hpr
  · rename_i emitted heq
    rw [heq] at hem
    split at h <;>
    · simp only [List.mem_append, List.mem_cons, List.mem_singleton, List.not_mem_nil,
        or_false] at h
      rcases h with (h | h | h) | h
      · exact absurd h hb
      · simp at h
        exact ⟨h.1, h.2.1⟩
      · obtain ⟨p, r, hpr⟩ := hem _ h
        simp at hpr
      · simp at h

theorem deploy_success_aux (w : World σ) (arg0 arg1 : GoSlice) (rest : List GoSlice)
    (caller contractAddr : crypto.Address) (input code : Bytes) (executed : σ)
    (sink : EventManager)
    (hrest : rest.length ≤ 1)
    (hcallee : hex.DecodeString arg0.str = .ok (List.replicate 20 0))
    (hcaller : getCallerAddress w = .ok caller)
    (hinput : hex.DecodeString arg1.str = .ok input)
    (haddr : contractAddr = w.newContractAddress caller (w.nonce caller w.getTxID))
    (hcreate : w.stateError (w.createAccount contractAddr w.newState) = none)
    (hperm : w.stateError (w.setPermission contractAddr (ContractPermFlags w) true
      (w.createAccount contractAddr w.newState)) = none)
    (hrun : runEngine w (w.vmCall caller (w.nonce caller w.getTxID)
      (w.setPermission contractAddr (ContractPermFlags w) true
        (w.createAccount contractAddr w.newState))
      caller contractAddr input input 0 gasBudget) ⟨[], contextOf w (arg0 :: arg1 :: rest)⟩ =
        .returned (some code) none executed sink)
    (hinit : w.stateError (w.initCode contractAddr code executed) = none)
    (hflush : (sink.Flush w (hex.EncodeToString (contractAddr.bytes.take 4))).1 = none)
    (hsync : w.sync (w.initCode contractAddr code executed) = none) :
    EvmChaincode.Invoke w (arg0 :: arg1 :: rest) =
      ⟨.response (.success (some (hex.EncodeToString contractAddr.bytes))),
        [.getCreator, .createAccount contractAddr,
          .setPermission contractAddr (ContractPermFlags w) true,
          .vmCall caller contractAddr input input 0 gasBudget,
          .vmReturn (some code) none, .initCode contractAddr code] ++
        .flush (hex.EncodeToString (contractAddr.bytes.take 4)) sink.EventCache none ::
          (sink.Flush w (hex.EncodeToString (contractAddr.bytes.take 4))).2 ++ [.sync none]⟩ := by
  rw [Invoke_two_or_three w arg0 arg1 rest hrest]
  unfold EvmChaincode.invokeTx
  rw [if_neg (str_ne_getCode arg0 _ hcallee)]
  simp only [hcallee, AddressFromBytes_zero, hcaller, hinput, if_true]
  unfold EvmChaincode.deployContract
  simp only [← haddr, hcreate, hperm, hrun, hinit]
  rw [flushAndSync_success w _ sink _ _ _ hflush hsync]

theorem sliceTo_of_le (s : GoSlice) (n : Nat) (h : n ≤ s.len) :
    s.sliceTo n = .ok (s.str.take n) := by
  have hcap : n ≤ s.cap := Nat.le_trans h s.len_le
  unfold GoSlice.sliceTo GoSlice.str
  rw [if_pos hcap, List.take_take, Nat.min_eq_left h]

theorem call_success_aux (w : World σ) (arg0 arg1 : GoSlice) (rest : List GoSlice)
    (c : Bytes) (caller callee : crypto.Address) (input : Bytes) (output : Option Bytes)
    (executed : σ) (sink : EventManager)
    (hrest : rest.length ≤ 1)
    (hdecode : hex.DecodeString arg0.str = .ok c)
    (hcallee : crypto.AddressFromBytes c = .ok callee)
    (hnonzero : callee ≠ crypto.ZeroAddress)
    (hcaller : getCallerAddress w = .ok caller)
    (hinput : hex.DecodeString arg1.str = .ok input)
    (hlen : 8 ≤ arg1.len)
    (hcode : w.stateError (w.getCode callee w.newState).2 = none)
    (hrun : runEngine w (w.vmCall caller (w.nonce caller w.getTxID)
      (w.getCode callee w.newState).2 caller callee (w.getCode callee w.newState).1 input 0
      gasBudget) ⟨[], contextOf w (arg0 :: arg1 :: rest)⟩ = .returned output none executed sink)
    (hflush : (sink.Flush w (arg1.str.take 8)).1 = none)
    (hsync : w.sync executed = none) :
    EvmChaincode.Invoke w (arg0 :: arg1 :: rest) =
      ⟨.response (.success output),
        [.getCreator, .getCode callee,
          .vmCall caller callee (w.getCode callee w.newState).1 input 0 gasBudget,
          .vmReturn output none] ++
        .flush (arg1.str.take 8) sink.EventCache none ::
          (sink.Flush w (arg1.str.take 8)).2 ++ [.sync none]⟩ := by
  rw [Invoke_two_or_three w arg0 arg1 rest hrest]
  unfold EvmChaincode.invokeTx
  rw [if_neg (str_ne_getCode arg0 _ hdecode)]
  simp only [hdecode, hcallee, hcaller, hinput, if_neg hnonzero]
  unfold EvmChaincode.invokeContract
  simp only [hcode, hrun, sliceTo_of_le arg1 8 hlen]
  rw [flushAndSync_success w _ sink _ _ _ hflush hsync]

/-! ### The context attached to the log records -/

theorem Log_context (w : World σ) (sink : EventManager) (entry : LogEvent) :
    (sink.Log w entry).2.Context = sink.Context ∧
      ∀ ev ∈ (sink.Log w entry).2.EventCache, ev ∈ sink.EventCache ∨ ev.Context = sink.Context := by
  unfold EventManager.Log
  simp only []
  split
  · exact ⟨rfl, fun ev h => Or.inl h⟩
  · refine ⟨rfl, ?_⟩
    intro ev h
    simp only [List.mem_append, List.mem_singleton] at h
    rcases h with h | h
    · exact Or.inl h
    · exact Or.inr (by rw [h])

theorem runEngine_context (w : World σ) (run : EngineRun σ) (ctx : Context) :
    ∀ sink : EventManager, sink.Context = ctx → (∀ ev ∈ sink.EventCache, ev.Context = ctx) →
      ∀ output err cache sink', runEngine w run sink = .returned output err cache sink' →
        sink'.Context = ctx ∧ ∀ ev ∈ sink'.EventCache, ev.Context = ctx := by
  induction run with
  | done o e c =>
    intro sink hctx hall output err cache sink' h
    simp only [runEngine, EngineResult.returned.injEq] at h
    obtain ⟨_, _, _, hs⟩ := h
    subst hs
    exact ⟨hctx, hall⟩
  | log entry next ih =>
    intro sink hctx hall output err cache sink' h
    simp only [runEngine] at h
    have hl := Log_context w sink entry
    refine ih _ _ (hl.1.trans hctx) ?_ output err cache sink' h
    intro ev hev
    rcases hl.2 ev hev with h1 | h1
    · exact hall ev h1
    · exact h1.trans hctx
  | call next ih =>
    intro sink hctx hall output err cache sink' h
    simp only [runEngine, EventManager.Call] at h
    exact ih _ sink hctx hall output err cache sink' h
  | blockHash height =>
    intro sink hctx hall output err cache sink' h
    simp [runEngine] at h

theorem quiet_contextAttached (ctx : Context) (r : Result)
    (h : ∀ e ∈ r.trace, e.commits = false) : ContextAttached ctx r := by
  intro name cache err hmem
  have := h _ hmem
  simp [Effect.commits] at this

theorem flushAndSync_contextAttached (w : World σ) (ctx : Context) (before : List Effect)
    (sink : EventManager) (name : GoString) (cache : σ) (payload : Option Bytes)
    (hquiet : ∀ e ∈ before, e.commits = false)
    (hall : ∀ ev ∈ sink.EventCache, ev.Context = ctx) :
    ContextAttached ctx (EvmChaincode.flushAndSync w before sink name cache payload) := by
  intro n c err hmem ev hev
  obtain ⟨_, hc⟩ := flushAndSync_flush_name _ _ _ _ _ _ hquiet _ _ _ hmem
  subst hc
  exact hall ev hev

theorem deploy_contextAttached (w : World σ) (ctx : Context) (caller : crypto.Address)
    (nonce input : Bytes) :
    ContextAttached ctx (EvmChaincode.deployContract w ⟨[], ctx⟩ caller nonce input) := by
  unfold EvmChaincode.deployContract
  simp only []
  repeat' split
  all_goals first
    | exact flushAndSync_contextAttached _ _ _ _ _ _ _ (by simp [Effect.commits])
        (runEngine_context w _ ctx ⟨[], ctx⟩ rfl (by simp) _ _ _ _ (by assumption)).2
    | exact quiet_contextAttached _ _ (by simp [Effect.commits])

theorem invoke_contextAttached (w : World σ) (ctx : Context) (caller callee : crypto.Address)
    (nonce : Bytes) (arg1 : GoSlice) (input : Bytes) :
    ContextAttached ctx
      (EvmChaincode.invokeContract w ⟨[], ctx⟩ caller callee nonce arg1 input) := by
  unfold EvmChaincode.invokeContract
  simp only []
  repeat' split
  all_goals first
    | exact flushAndSync_contextAttached _ _ _ _ _ _ _ (by simp [Effect.commits])
        (runEngine_context w _ ctx ⟨[], ctx⟩ rfl (by simp) _ _ _ _ (by assumption)).2
    | exact quiet_contextAttached _ _ (by simp [Effect.commits])

theorem invokeTx_contextAttached (w : World σ) (ctx : Context) (arg0 arg1 : GoSlice) :
    ContextAttached ctx (EvmChaincode.invokeTx w ctx arg0 arg1) := by
  unfold EvmChaincode.invokeTx
  split
  · exact quiet_contextAttached _ _ (getCode_quiet w _)
  · repeat' split
    all_goals first
      | exact deploy_contextAttached _ _ _ _ _
      | exact invoke_contextAttached _ _ _ _ _ _ _
      | exact quiet_contextAttached _ _ (by simp [Effect.commits])

/-! ### The loop over the topics -/

theorem logTopics_ok (w : World σ) (topics : List Bytes) (texts acc : List GoString)
    (h : List.Forall₂ (fun topic t => w.marshalText topic = .ok t) topics texts) :
    EventManager.logTopics w topics acc = .ok (acc ++ texts.map w.toLower) := by
  induction h generalizing acc with
  | nil => simp [EventManager.logTopics]
  | cons hhead _ ih => simp [EventManager.logTopics, hhead, ih]

theorem logTopics_error (w : World σ) (topics : List Bytes) (acc : List GoString)
    (h : ∃ topic ∈ topics, ∃ err, w.marshalText topic = .error err) :
    ∃ err, EventManager.logTopics w topics acc = .error err := by
  induction topics generalizing acc with
  | nil => simp at h
  | cons topic rest ih =>
    unfold EventManager.logTopics
    split
    · exact ⟨_, rfl⟩
    · rename_i t hok
      obtain ⟨bad, hmem, err, hbad⟩ := h
      rcases List.mem_cons.mp hmem with hb | hb
      · rw [hb, hok] at hbad
        cases hbad
      · exact ih _ ⟨bad, hb, err, hbad⟩

/-! ### Letter case of the hexadecimal digits -/

theorem fromHexChar_fold (c d v : Nat) (hfold : asciiLower d = asciiLower c)
    (h : hex.fromHexChar c = some v) : hex.fromHexChar d = some v := by
  unfold hex.fromHexChar at h ⊢
  unfold asciiLower at hfold
  split_ifs at h hfold ⊢ <;> simp only [Option.some.injEq] at h ⊢ <;> omega

theorem DecodeString_fold (s t : GoString) (c : Bytes)
    (hfold : t.map asciiLower = s.map asciiLower) (h : hex.DecodeString s = .ok c) :
    hex.DecodeString t = .ok c := by
  match s, t with
  | [], [] => exact h
  | [], _ :: _ => simp at hfold
  | [_], _ => simp [hex.DecodeString] at h; split at h <;> cases h
  | _ :: _ :: _, [] => simp at hfold
  | _ :: _ :: _, [_] => simp at hfold
  | p :: q :: rest, p' :: q' :: rest' =>
    simp only [List.map_cons, List.cons.injEq] at hfold
    obtain ⟨hp, hq, hrest⟩ := hfold
    unfold hex.DecodeString at h ⊢
    split at h
    · cases h
    · rename_i a ha
      split at h
      · cases h
      · rename_i b hb
        split at h
        · cases h
        · rename_i bs hbs
          simp only [fromHexChar_fold p p' a hp ha, fromHexChar_fold q q' b hq hb,
            DecodeString_fold rest rest' bs hrest hbs]
          exact h

/-! ### Which branch runs: the calls that mark it -/

theorem flushAndSync_before (w : World σ) (before : List Effect) (sink : EventManager)
    (name : GoString) (cache : σ) (payload : Option Bytes) :
    ∀ e ∈ before, e ∈ (EvmChaincode.flushAndSync w before sink name cache payload).trace := by
  intro e he
  unfold EvmChaincode.flushAndSync
  split
  · simp [he]
  · split <;> simp [he]

theorem deploy_marks (w : World σ) (sink : EventManager) (caller : crypto.Address)
    (nonce input : Bytes) :
    Effect.createAccount (w.newContractAddress caller nonce) ∈
        (EvmChaincode.deployContract w sink caller nonce input).trace ∧
      ∀ addr, Effect.getCode addr ∉ (EvmChaincode.deployContract w sink caller nonce input).trace := by
  unfold EvmChaincode.deployContract
  simp only []
  repeat' split
  all_goals first
    | refine ⟨flushAndSync_before _ _ _ _ _ _ _ (by simp), ?_⟩
      intro addr hmem
      have h2 := flushAndSync_mem _ _ _ _ _ _ _ hmem
      simp [Effect.commits] at h2
    | simp

theorem invoke_marks (w : World σ) (sink : EventManager) (caller callee : crypto.Address)
    (nonce : Bytes) (arg1 : GoSlice) (input : Bytes) :
    Effect.getCode callee ∈
        (EvmChaincode.invokeContract w sink caller callee nonce arg1 input).trace ∧
      ∀ addr, Effect.createAccount addr ∉
        (EvmChaincode.invokeContract w sink caller callee nonce arg1 input).trace := by
  unfold EvmChaincode.invokeContract
  simp only []
  repeat' split
  all_goals first
    | refine ⟨flushAndSync_before _ _ _ _ _ _ _ (by simp), ?_⟩
      intro addr hmem
      have h2 := flushAndSync_mem _ _ _ _ _ _ _ hmem
      simp [Effect.commits] at h2
    | simp

theorem zero_iff (c : Bytes) (callee : crypto.Address)
    (h : crypto.AddressFromBytes c = .ok callee) :
    callee = crypto.ZeroAddress ↔ c = List.replicate 20 0 := by
  have hb := AddressFromBytes_ok c callee h
  constructor
  · intro hz
    rw [← hb, hz]
    rfl
  · intro hc
    cases callee with
    | mk bytes size =>
      simp only at hb
      subst hb
      subst hc
      rfl

theorem invokeTx_classified (w : World σ) (ctx : Context) (arg0 arg1 : GoSlice) (c : Bytes)
    (callee caller : crypto.Address) (input : Bytes)
    (hdecode : hex.DecodeString arg0.str = .ok c)
    (hcallee : crypto.AddressFromBytes c = .ok callee)
    (hcaller : getCallerAddress w = .ok caller)
    (hinput : hex.DecodeString arg1.str = .ok input) :
    EvmChaincode.invokeTx w ctx arg0 arg1 =
      if callee = crypto.ZeroAddress then
        EvmChaincode.deployContract w ⟨[], ctx⟩ caller (w.nonce caller w.getTxID) input
      else
        EvmChaincode.invokeContract w ⟨[], ctx⟩ caller callee (w.nonce caller w.getTxID) arg1
          input := by
  unfold EvmChaincode.invokeTx
  rw [if_neg (str_ne_getCode arg0 _ hdecode)]
  simp only [hdecode, hcallee, hcaller, hinput]

theorem invokeTx_fold (w : World σ) (ctx : Context) (arg0 arg0' arg1 : GoSlice) (c : Bytes)
    (hvalid : hex.DecodeString arg0.str = .ok c)
    (hcase : arg0'.str.map asciiLower = arg0.str.map asciiLower) :
    EvmChaincode.invokeTx w ctx arg0' arg1 = EvmChaincode.invokeTx w ctx arg0 arg1 := by
  have hvalid' := DecodeString_fold arg0.str arg0'.str c hcase hvalid
  unfold EvmChaincode.invokeTx
  rw [if_neg (str_ne_getCode arg0 _ hvalid), if_neg (str_ne_getCode arg0' _ hvalid')]
  simp only [hvalid, hvalid']

/-! ## The claims -/

/-- Claim C1. Whenever the virtual machine's `Call` returns an error (on the deploy branch or
on the call branch), and whenever it returns nil code without an error on the deploy
branch, `Invoke` answers with an error response and its trace holds no `SetEvent`, no
`Flush` and no `Sync`. -/
theorem abort_commits_nothing (w : World σ) (args : List GoSlice)
    (h : (∃ output err,
        Effect.vmReturn output (some err) ∈ (EvmChaincode.Invoke w args).trace) ∨
      (Effect.vmReturn none none ∈ (EvmChaincode.Invoke w args).trace ∧
        ∃ addr, Effect.createAccount addr ∈ (EvmChaincode.Invoke w args).trace)) :
    (∃ message, (EvmChaincode.Invoke w args).outcome = .response (.error message)) ∧
      (∀ name payload err,
        Effect.setEvent name payload err ∉ (EvmChaincode.Invoke w args).trace) ∧
      (∀ name cache err, Effect.flush name cache err ∉ (EvmChaincode.Invoke w args).trace) ∧
      ∀ err, Effect.sync err ∉ (EvmChaincode.Invoke w args).trace := by
  obtain ⟨hresp, hquiet⟩ := Invoke_abortClean w args h
  refine ⟨hresp, ?_, ?_, ?_⟩
  · intro name payload err hmem
    have := hquiet _ hmem
    simp [Effect.commits] at this
  · intro name cache err hmem
    have := hquiet _ hmem
    simp [Effect.commits] at this
  · intro err hmem
    have := hquiet _ hmem
    simp [Effect.commits] at this

/-- Witness of C1: a call on which the virtual machine reports `revert`. -/
theorem abort_commits_nothing_witness :
    Effect.vmReturn none (some "revert") ∈
        (EvmChaincode.Invoke (sampleWorld [sampleLog] none (some "revert") (none, none))
          callRequest).trace ∧
      (EvmChaincode.Invoke (sampleWorld [sampleLog] none (some "revert") (none, none))
          callRequest).outcome = .response (.error (.executeContract "revert")) ∧
      ∀ err, Effect.sync err ∉
        (EvmChaincode.Invoke (sampleWorld [sampleLog] none (some "revert") (none, none))
          callRequest).trace :=
  ⟨by decide, by decide,
    (abort_commits_nothing (sampleWorld [sampleLog] none (some "revert") (none, none))
      callRequest (Or.inl ⟨none, "revert", by decide⟩)).2.2.2⟩

/-- Claim C2, at the empty argument list: `Invoke` does not answer with an argument-count
error; the expression `args[0]` in the message of that error panics. -/
theorem empty_argument_list_panics (w : World σ) :
    EvmChaincode.Invoke w [] = ⟨.fault (.indexOutOfRange 0 0), []⟩ := by
  rfl

/-- The part of C2 that the code keeps: a non-empty argument list that has neither two nor
three entries and is not the single argument `"account"` gets the argument-count error, and
no collaborator is called. -/
theorem argument_count_error (w : World σ) (arg0 : GoSlice) (rest : List GoSlice)
    (hcount : rest.length ≠ 1 ∧ rest.length ≠ 2)
    (haccount : ¬ (rest = [] ∧ arg0.str = literalAccount)) :
    EvmChaincode.Invoke w (arg0 :: rest) =
      ⟨.response (.error (.expectsTwoArgs (rest.length + 1) arg0.str)), []⟩ := by
  unfold EvmChaincode.Invoke
  match rest, hcount, haccount with
  | [], _, hacc =>
    have : arg0.str ≠ literalAccount := fun h => hacc ⟨rfl, h⟩
    simp [this]
  | [_], hc, _ => simp at hc
  | [_, _], hc, _ => simp at hc
  | _ :: _ :: _ :: _, _, _ => simp

/-- Claim C3, at a call with empty input: the virtual machine succeeds, and then the slice
expression `args[1][0:8]` that computes the event name panics; nothing is flushed and
nothing is synchronised. -/
theorem empty_input_call_panics :
    EvmChaincode.Invoke (sampleWorld [] (some [1]) none (none, none)) emptyInputRequest =
      ⟨.fault (.sliceBoundsOutOfRange 8 0),
        [.getCreator, .getCode (sampleAddress 0x22),
          .vmCall (sampleAddress 0x11) (sampleAddress 0x22) [0x60] [] 0 gasBudget,
          .vmReturn (some [1]) none]⟩ := by
  decide

/-- Claim C4. In every run of `Invoke`, `Flush` and `Sync` are each called at most once;
every call of `Sync` comes after a return of the virtual machine without error and after a
`Flush` that returned no error; and when a `Flush` returns an error, `Invoke` answers with an
error response and `Sync` is not called. -/
theorem commit_ordering (w : World σ) (args : List GoSlice) :
    (EvmChaincode.Invoke w args).trace.countP Effect.isFlush ≤ 1 ∧
      (EvmChaincode.Invoke w args).trace.countP Effect.isSync ≤ 1 ∧
      (∀ pre post err, (EvmChaincode.Invoke w args).trace = pre ++ Effect.sync err :: post →
        (∃ output, Effect.vmReturn output none ∈ pre) ∧
          ∃ name cache, Effect.flush name cache none ∈ pre) ∧
      (∀ name cache err,
        Effect.flush name cache (some err) ∈ (EvmChaincode.Invoke w args).trace →
          (∃ message, (EvmChaincode.Invoke w args).outcome = .response (.error message)) ∧
            ∀ syncErr, Effect.sync syncErr ∉ (EvmChaincode.Invoke w args).trace) :=
  Invoke_commitOrdered w args

/-- Witness of C4: in the sample call, what precedes `Sync` holds the successful return of
the virtual machine and the successful `Flush`. -/
theorem commit_ordering_witness :
    (∃ output, Effect.vmReturn output none ∈
      [Effect.getCreator, .getCode (sampleAddress 0x22),
        .vmCall (sampleAddress 0x11) (sampleAddress 0x22) [0x60] [0xa9, 0x05, 0x9c, 0xbb, 0]
          0 gasBudget,
        .vmReturn (some [1]) none,
        .flush [97, 57, 48, 53, 57, 99, 98, 98] [sampleRecord none] none,
        .setEvent [97, 57, 48, 53, 57, 99, 98, 98] [40] none]) ∧
      ∃ name cache, Effect.flush name cache none ∈
        [Effect.getCreator, .getCode (sampleAddress 0x22),
          .vmCall (sampleAddress 0x11) (sampleAddress 0x22) [0x60] [0xa9, 0x05, 0x9c, 0xbb, 0]
            0 gasBudget,
          .vmReturn (some [1]) none,
          .flush [97, 57, 48, 53, 57, 99, 98, 98] [sampleRecord none] none,
          .setEvent [97, 57, 48, 53, 57, 99, 98, 98] [40] none] :=
  (commit_ordering (sampleWorld [sampleLog] (some [1]) none (none, none)) callRequest).2.2.1
    _ [] none (by decide)

/-- Claim C5. When argument 0 decodes to the twenty zero bytes and the resolution of the
caller, the creation of the account, the assignment of the permissions, the execution (with
code that is not nil), the initialisation of the code, the flush and the synchronisation
all succeed, `Invoke` answers with success; the payload is the hexadecimal text, 40
characters long, of `NewContractAddress(caller, Nonce(caller, txID))`; and `Flush` is called
once, under the hexadecimal text of the first four bytes of that address, which is the
first eight characters of the payload. -/
theorem deploy_success (w : World σ) (arg0 arg1 : GoSlice) (rest : List GoSlice)
    (caller contractAddr : crypto.Address) (input code : Bytes) (executed : σ)
    (sink : EventManager)
    (hrest : rest.length ≤ 1)
    (hcallee : hex.DecodeString arg0.str = .ok (List.replicate 20 0))
    (hcaller : getCallerAddress w = .ok caller)
    (hinput : hex.DecodeString arg1.str = .ok input)
    (haddr : contractAddr = w.newContractAddress caller (w.nonce caller w.getTxID))
    (hcreate : w.stateError (w.createAccount contractAddr w.newState) = none)
    (hperm : w.stateError (w.setPermission contractAddr (ContractPermFlags w) true
      (w.createAccount contractAddr w.newState)) = none)
    (hrun : runEngine w (w.vmCall caller (w.nonce caller w.getTxID)
      (w.setPermission contractAddr (ContractPermFlags w) true
        (w.createAccount contractAddr w.newState))
      caller contractAddr input input 0 gasBudget) ⟨[], contextOf w (arg0 :: arg1 :: rest)⟩ =
        .returned (some code) none executed sink)
    (hinit : w.stateError (w.initCode contractAddr code executed) = none)
    (hflush : (sink.Flush w (hex.EncodeToString (contractAddr.bytes.take 4))).1 = none)
    (hsync : w.sync (w.initCode contractAddr code executed) = none) :
    EvmChaincode.Invoke w (arg0 :: arg1 :: rest) =
        ⟨.response (.success (some (hex.EncodeToString contractAddr.bytes))),
          [.getCreator, .createAccount contractAddr,
            .setPermission contractAddr (ContractPermFlags w) true,
            .vmCall caller contractAddr input input 0 gasBudget,
            .vmReturn (some code) none, .initCode contractAddr code] ++
          .flush ((hex.EncodeToString contractAddr.bytes).take 8) sink.EventCache none ::
            (sink.Flush w ((hex.EncodeToString contractAddr.bytes).take 8)).2 ++
          [.sync none]⟩ ∧
      (hex.EncodeToString contractAddr.bytes).length = 40 ∧
      (hex.EncodeToString contractAddr.bytes).take 8 =
        hex.EncodeToString (contractAddr.bytes.take 4) := by
  have htake : (hex.EncodeToString contractAddr.bytes).take 8 =
      hex.EncodeToString (contractAddr.bytes.take 4) := EncodeToString_take contractAddr.bytes 4
  refine ⟨?_, ?_, htake⟩
  · rw [htake]
    exact deploy_success_aux w arg0 arg1 rest caller contractAddr input code executed sink hrest
      hcallee hcaller hinput haddr hcreate hperm hrun hinit hflush hsync
  · rw [EncodeToString_length, contractAddr.size]

/-- Witness of C5: the sample deployment, whose contract address is twenty bytes `0xab`. -/
theorem deploy_success_witness :
    EvmChaincode.Invoke (sampleWorld [sampleLog] (some [1]) none (none, none)) deployRequest =
        ⟨.response (.success (some (hex.EncodeToString (sampleAddress 0xab).bytes))),
          [.getCreator, .createAccount (sampleAddress 0xab),
            .setPermission (sampleAddress 0xab) 14 true,
            .vmCall (sampleAddress 0x11) (sampleAddress 0xab) [0xa9, 0x05, 0x9c, 0xbb, 0]
              [0xa9, 0x05, 0x9c, 0xbb, 0] 0 gasBudget,
            .vmReturn (some [1]) none, .initCode (sampleAddress 0xab) [1],
            .flush [97, 98, 97, 98, 97, 98, 97, 98] [sampleRecord none] none,
            .setEvent [97, 98, 97, 98, 97, 98, 97, 98] [40] none,
            .sync none]⟩ ∧
      (hex.EncodeToString (sampleAddress 0xab).bytes).length = 40 ∧
      (hex.EncodeToString (sampleAddress 0xab).bytes).take 8 =
        [97, 98, 97, 98, 97, 98, 97, 98] :=
  deploy_success (sampleWorld [sampleLog] (some [1]) none (none, none))
    (.ofBytes zeroAddressHex) (.ofBytes transferInput) [] (sampleAddress 0x11)
    (sampleAddress 0xab) [0xa9, 0x05, 0x9c, 0xbb, 0] [1] () ⟨[sampleRecord none], none⟩
    (by decide) (by decide) (by decide) (by decide) rfl rfl rfl rfl rfl (by decide) rfl

/-- Claim C6. On the call branch, when argument 1 is valid hexadecimal text of at least
eight characters and the resolution of the caller, the reading of the code, the execution,
the flush and the synchronisation all succeed, `Invoke` answers with success and the
output of the virtual machine as payload; the virtual machine is called with the code read
from the cache and the decoded argument 1 as input; and `Flush` is called once, under the
first eight bytes of the undecoded argument 1. -/
theorem call_success (w : World σ) (arg0 arg1 : GoSlice) (rest : List GoSlice)
    (c : Bytes) (caller callee : crypto.Address) (input : Bytes) (output : Option Bytes)
    (executed : σ) (sink : EventManager)
    (hrest : rest.length ≤ 1)
    (hdecode : hex.DecodeString arg0.str = .ok c)
    (hcallee : crypto.AddressFromBytes c = .ok callee)
    (hnonzero : callee ≠ crypto.ZeroAddress)
    (hcaller : getCallerAddress w = .ok caller)
    (hinput : hex.DecodeString arg1.str = .ok input)
    (hlen : 8 ≤ arg1.str.length)
    (hcode : w.stateError (w.getCode callee w.newState).2 = none)
    (hrun : runEngine w (w.vmCall caller (w.nonce caller w.getTxID)
      (w.getCode callee w.newState).2 caller callee (w.getCode callee w.newState).1 input 0
      gasBudget) ⟨[], contextOf w (arg0 :: arg1 :: rest)⟩ = .returned output none executed sink)
    (hflush : (sink.Flush w (arg1.str.take 8)).1 = none)
    (hsync : w.sync executed = none) :
    EvmChaincode.Invoke w (arg0 :: arg1 :: rest) =
      ⟨.response (.success output),
        [.getCreator, .getCode callee,
          .vmCall caller callee (w.getCode callee w.newState).1 input 0 gasBudget,
          .vmReturn output none] ++
        .flush (arg1.str.take 8) sink.EventCache none ::
          (sink.Flush w (arg1.str.take 8)).2 ++ [.sync none]⟩ := by
  have hlen' : 8 ≤ arg1.len := by
    have h := arg1.len_le
    unfold GoSlice.str at hlen
    rw [List.length_take] at hlen
    omega
  exact call_success_aux w arg0 arg1 rest c caller callee input output executed sink hrest
    hdecode hcallee hnonzero hcaller hinput hlen' hcode hrun hflush hsync

/-- Witness of C6: the sample call, whose input starts with `a9059cbb`. -/
theorem call_success_witness :
    EvmChaincode.Invoke (sampleWorld [sampleLog] (some [1]) none (none, none)) callRequest =
      ⟨.response (.success (some [1])),
        [.getCreator, .getCode (sampleAddress 0x22),
          .vmCall (sampleAddress 0x11) (sampleAddress 0x22) [0x60] [0xa9, 0x05, 0x9c, 0xbb, 0]
            0 gasBudget,
          .vmReturn (some [1]) none,
          .flush [97, 57, 48, 53, 57, 99, 98, 98] [sampleRecord none] none,
          .setEvent [97, 57, 48, 53, 57, 99, 98, 98] [40] none,
          .sync none]⟩ :=
  call_success (sampleWorld [sampleLog] (some [1]) none (none, none))
    (.ofBytes otherAddressHex) (.ofBytes transferInput) [] (List.replicate 20 0x22)
    (sampleAddress 0x11) (sampleAddress 0x22) [0xa9, 0x05, 0x9c, 0xbb, 0] (some [1]) ()
    ⟨[sampleRecord none], none⟩
    (by decide) (by decide) (by decide) (by decide) (by decide) (by decide) (by decide) rfl rfl
    (by decide) rfl

/-- Claim C7 as stated fails: on the three-argument request whose third argument is
`illTypedContext`, the parse reports an error and leaves two entries in the map; the record
that is flushed carries that map, and the run differs from the run of the two-argument
request. -/
theorem unparseable_context_counterexample :
    (illTypedParse.2 ≠ none) ∧
      EvmChaincode.Invoke (sampleWorld [sampleLog] (some [1]) none illTypedParse)
          (callRequest ++ [.ofBytes illTypedContext]) ≠
        EvmChaincode.Invoke (sampleWorld [sampleLog] (some [1]) none illTypedParse) callRequest ∧
      Effect.flush [97, 57, 48, 53, 57, 99, 98, 98]
          [sampleRecord (some [([97], [98]), ([99], [])])] none ∈
        (EvmChaincode.Invoke (sampleWorld [sampleLog] (some [1]) none illTypedParse)
          (callRequest ++ [.ofBytes illTypedContext])).trace := by
  decide

/-- Claim C7, amended. A three-argument request whose third argument fails to parse is not
aborted: `Invoke` runs the body of the two-argument request with the context map that the
parser left behind; every record that is flushed carries exactly that map; and when the
parser left the nil map, the run is the run of the two-argument request formed from the
first two arguments. -/
theorem unparseable_context (w : World σ) (arg0 arg1 arg2 : GoSlice) :
    EvmChaincode.Invoke w [arg0, arg1, arg2] =
        EvmChaincode.invokeTx w (w.jsonUnmarshal arg2.str).1 arg0 arg1 ∧
      (∀ name cache flushErr,
        Effect.flush name cache flushErr ∈ (EvmChaincode.Invoke w [arg0, arg1, arg2]).trace →
          ∀ ev ∈ cache, ev.Context = (w.jsonUnmarshal arg2.str).1) ∧
      ((w.jsonUnmarshal arg2.str).1 = none →
        EvmChaincode.Invoke w [arg0, arg1, arg2] = EvmChaincode.Invoke w [arg0, arg1]) := by
  have h3 : EvmChaincode.Invoke w [arg0, arg1, arg2] =
      EvmChaincode.invokeTx w (w.jsonUnmarshal arg2.str).1 arg0 arg1 := by
    simp [EvmChaincode.Invoke]
  have h2 : EvmChaincode.Invoke w [arg0, arg1] = EvmChaincode.invokeTx w none arg0 arg1 := by
    simp [EvmChaincode.Invoke]
  refine ⟨h3, ?_, ?_⟩
  · rw [h3]
    exact invokeTx_contextAttached w _ arg0 arg1
  · intro hnil
    rw [h3, h2, hnil]

/-- Witness of C7 amended: the parser reports a syntax error and leaves the nil map. -/
theorem unparseable_context_witness :
    EvmChaincode.Invoke (sampleWorld [sampleLog] (some [1]) none (none, some "unexpected end"))
        (callRequest ++ [.ofBytes [123]]) =
      EvmChaincode.Invoke (sampleWorld [sampleLog] (some [1]) none (none, some "unexpected end"))
        callRequest :=
  (unparseable_context (sampleWorld [sampleLog] (some [1]) none (none, some "unexpected end"))
    (.ofBytes otherAddressHex) (.ofBytes transferInput) (.ofBytes [123])).2.2 rfl

/-- Claim C8. The serialiser `json.Marshal` returns no error on the records that `Log`
buffers (texts, lists of texts and maps of texts); `hser` says so for the buffer at hand.
Then `Flush` on a collector without records returns no error and calls nothing; `Flush` on a
collector with records calls `SetEvent` once, with the given name and the serialisation of
the whole buffer, in the order of insertion, and returns what the channel returns; so
`Flush` emits exactly when the buffer is not empty. -/
theorem flush_emits_iff_nonempty (w : World σ) (evmgr : EventManager) (name : GoString)
    (hser : ∃ payload, w.jsonMarshal evmgr.EventCache = .ok payload) :
    (evmgr.EventCache = [] → evmgr.Flush w name = (none, [])) ∧
      (evmgr.EventCache ≠ [] →
        ∃ payload, w.jsonMarshal evmgr.EventCache = .ok payload ∧
          evmgr.Flush w name =
            ((w.setEvent name payload).map FlushError.channel,
              [.setEvent name payload (w.setEvent name payload)])) ∧
      ((evmgr.Flush w name).2 ≠ [] ↔ evmgr.EventCache ≠ []) := by
  obtain ⟨payload, hok⟩ := hser
  have hempty : evmgr.EventCache = [] → evmgr.Flush w name = (none, []) := by
    intro h
    simp [EventManager.Flush, h]
  have hfull : evmgr.EventCache ≠ [] →
      evmgr.Flush w name =
        ((w.setEvent name payload).map FlushError.channel,
          [.setEvent name payload (w.setEvent name payload)]) := by
    intro hne
    have hlen : evmgr.EventCache.length ≠ 0 := fun h => hne (List.length_eq_zero.mp h)
    unfold EventManager.Flush
    rw [if_neg hlen]
    simp only [hok]
    cases hset : w.setEvent name payload <;> simp
  refine ⟨hempty, fun hne => ⟨payload, hok, hfull hne⟩, ?_⟩
  constructor
  · intro hemit hnil
    rw [hempty hnil] at hemit
    exact hemit rfl
  · intro hne
    rw [hfull hne]
    simp

/-- Witness of C8: a collector with one record in the sample world. -/
theorem flush_emits_iff_nonempty_witness :
    EventManager.Flush (sampleWorld [] none none (none, none)) ⟨[], none⟩ [97] = (none, []) ∧
      ∃ payload,
        (sampleWorld [] none none (none, none)).jsonMarshal [sampleRecord none] = .ok payload ∧
          EventManager.Flush (sampleWorld [] none none (none, none))
              ⟨[sampleRecord none], none⟩ [97] =
            (((sampleWorld [] none none (none, none)).setEvent [97] payload).map
                FlushError.channel,
              [.setEvent [97] payload
                ((sampleWorld [] none none (none, none)).setEvent [97] payload)]) :=
  ⟨(flush_emits_iff_nonempty (sampleWorld [] none none (none, none)) ⟨[], none⟩ [97]
      ⟨[], rfl⟩).1 rfl,
    (flush_emits_iff_nonempty (sampleWorld [] none none (none, none))
      ⟨[sampleRecord none], none⟩ [97] ⟨[40], rfl⟩).2.1 (by decide)⟩

/-- Claim C9. When every topic of the log entry converts to text, `Log` returns no error and
the buffer afterwards is the buffer before followed by one new record: its address and its
data are the lower-cased text forms of the entry's, its topics are the lower-cased text forms
of the entry's topics in the same order, and its context is the collector's context, which
`Log` leaves as it is. When some topic does not convert, `Log` returns the error
`Failed to Marshal Topic`. -/
theorem log_appends_one_record (w : World σ) (evmgr : EventManager) (log : LogEvent) :
    (∀ texts, List.Forall₂ (fun topic t => w.marshalText topic = .ok t) log.Topics texts →
        evmgr.Log w log =
          (none,
            { EventCache := evmgr.EventCache ++
                [{ Address := w.toLower (w.addressString log.Address)
                   Data := w.toLower (w.hexBytesString log.Data)
                   Topics := texts.map w.toLower
                   Context := evmgr.Context }]
              Context := evmgr.Context })) ∧
      ((∃ topic ∈ log.Topics, ∃ err, w.marshalText topic = .error err) →
        ∃ err, (evmgr.Log w log).1 = some (.marshalTopic err)) := by
  constructor
  · intro texts h
    unfold EventManager.Log
    simp [logTopics_ok w log.Topics texts [] h]
  · intro h
    obtain ⟨err, herr⟩ := logTopics_error w log.Topics [] h
    unfold EventManager.Log
    simp [herr]

/-- Witness of C9: the sample log entry on a collector that holds one record already, and the
same entry in a world in which no topic converts. -/
theorem log_appends_one_record_witness :
    EventManager.Log (sampleWorld [] none none (none, none))
        ⟨[sampleRecord (some [])], some []⟩ sampleLog =
      (none, ⟨[sampleRecord (some []), sampleRecord (some [])], some []⟩) ∧
      ∃ err, (EventManager.Log failingTopicWorld ⟨[], none⟩ sampleLog).1 =
        some (.marshalTopic err) :=
  ⟨(log_appends_one_record (sampleWorld [] none none (none, none))
      ⟨[sampleRecord (some [])], some []⟩ sampleLog).1 [[48, 50]]
      (List.Forall₂.cons rfl List.Forall₂.nil),
    (log_appends_one_record failingTopicWorld ⟨[], none⟩ sampleLog).2
      ⟨[2], by decide, "invalid topic", rfl⟩⟩

/-- Claim C10. For a two-argument request whose argument 0 is valid hexadecimal text
(`"getCode"` is not), changing the letter case of the digits of argument 0 changes neither
the decoded bytes nor the run. When the text decodes to twenty bytes, these bytes are the
callee address and the run is the one written out below: after the resolution of the caller
and the decoding of argument 1, which both end the run with an error response when they
fail, the comparison with the zero address selects the branch. So the deploy branch (the
one that calls `CreateAccount`) runs exactly when the twenty bytes are zero, and the call
branch (the one that calls `GetCode`) exactly when they are not, in both cases provided the
run gets as far as the comparison. When the text decodes to another number of bytes, neither
branch runs. -/
theorem callee_address_selects_branch (w : World σ) (arg0 arg0' arg1 : GoSlice) (c : Bytes)
    (hvalid : hex.DecodeString arg0.str = .ok c)
    (hcase : arg0'.str.map asciiLower = arg0.str.map asciiLower) :
    arg0.str ≠ literalGetCode ∧
      hex.DecodeString arg0'.str = .ok c ∧
      EvmChaincode.Invoke w [arg0', arg1] = EvmChaincode.Invoke w [arg0, arg1] ∧
      (∀ hsize : c.length = 20,
        EvmChaincode.Invoke w [arg0, arg1] =
            (match getCallerAddress w with
              | .error err => ⟨.response (.error (.getCallerAddress err)), [.getCreator]⟩
              | .ok caller =>
                match hex.DecodeString arg1.str with
                | .error err => ⟨.response (.error (.decodeInput err)), [.getCreator]⟩
                | .ok input =>
                  if c = List.replicate 20 0 then
                    EvmChaincode.deployContract w ⟨[], none⟩ caller
                      (w.nonce caller w.getTxID) input
                  else
                    EvmChaincode.invokeContract w ⟨[], none⟩ caller ⟨c, hsize⟩
                      (w.nonce caller w.getTxID) arg1 input) ∧
          ((∃ addr, Effect.createAccount addr ∈ (EvmChaincode.Invoke w [arg0, arg1]).trace) ↔
            c = List.replicate 20 0 ∧ (∃ caller, getCallerAddress w = .ok caller) ∧
              ∃ input, hex.DecodeString arg1.str = .ok input) ∧
          ((∃ addr, Effect.getCode addr ∈ (EvmChaincode.Invoke w [arg0, arg1]).trace) ↔
            c ≠ List.replicate 20 0 ∧ (∃ caller, getCallerAddress w = .ok caller) ∧
              ∃ input, hex.DecodeString arg1.str = .ok input) ∧
          (c ≠ List.replicate 20 0 → (∃ caller, getCallerAddress w = .ok caller) →
            (∃ input, hex.DecodeString arg1.str = .ok input) →
              Effect.getCode ⟨c, hsize⟩ ∈ (EvmChaincode.Invoke w [arg0, arg1]).trace)) ∧
      (c.length ≠ 20 →
        EvmChaincode.Invoke w [arg0, arg1] =
          ⟨.response (.error (.getCalleeAddress ⟨c⟩)), []⟩) := by
  have h2 : ∀ a : GoSlice,
      EvmChaincode.Invoke w [a, arg1] = EvmChaincode.invokeTx w none a arg1 := by
    intro a
    simp [EvmChaincode.Invoke]
  refine ⟨str_ne_getCode arg0 c hvalid, DecodeString_fold arg0.str arg0'.str c hcase hvalid,
    ?_, ?_, ?_⟩
  · rw [h2, h2]
    exact invokeTx_fold w none arg0 arg0' arg1 c hvalid hcase
  · intro hsize
    have hcallee : crypto.AddressFromBytes c = .ok ⟨c, hsize⟩ := by
      unfold crypto.AddressFromBytes
      rw [dif_pos hsize]
    have hz := zero_iff c ⟨c, hsize⟩ hcallee
    cases hcaller : getCallerAddress w with
    | error err =>
      have heq : EvmChaincode.Invoke w [arg0, arg1] =
          ⟨.response (.error (.getCallerAddress err)), [.getCreator]⟩ := by
        rw [h2]
        unfold EvmChaincode.invokeTx
        rw [if_neg (str_ne_getCode arg0 _ hvalid)]
        simp only [hvalid, hcallee, hcaller]
      refine ⟨heq, ?_, ?_, ?_⟩
      · rw [heq]
        simp
      · rw [heq]
        simp
      · intro _ hc
        obtain ⟨caller, h⟩ := hc
        cases h
    | ok caller =>
      cases hinput : hex.DecodeString arg1.str with
      | error err =>
        have heq : EvmChaincode.Invoke w [arg0, arg1] =
            ⟨.response (.error (.decodeInput err)), [.getCreator]⟩ := by
          rw [h2]
          unfold EvmChaincode.invokeTx
          rw [if_neg (str_ne_getCode arg0 _ hvalid)]
          simp only [hvalid, hcallee, hcaller, hinput]
        refine ⟨heq, ?_, ?_, ?_⟩
        · rw [heq]
          simp
        · rw [heq]
          simp
        · intro _ _ hi
          obtain ⟨input, h⟩ := hi
          cases h
      | ok input =>
        have hcl := invokeTx_classified w none arg0 arg1 c ⟨c, hsize⟩ caller input hvalid
          hcallee hcaller hinput
        by_cases hc : c = List.replicate 20 0
        · have heq : EvmChaincode.Invoke w [arg0, arg1] =
              EvmChaincode.deployContract w ⟨[], none⟩ caller (w.nonce caller w.getTxID)
                input := by
            rw [h2, hcl, if_pos (hz.mpr hc)]
          have hm := deploy_marks w ⟨[], none⟩ caller (w.nonce caller w.getTxID) input
          refine ⟨?_, ?_, ?_, ?_⟩
          · rw [heq]
            simp only [if_pos hc]
          · rw [heq]
            exact ⟨fun _ => ⟨hc, ⟨caller, rfl⟩, ⟨input, rfl⟩⟩, fun _ => ⟨_, hm.1⟩⟩
          · rw [heq]
            constructor
            · intro hex
              obtain ⟨addr, hmem⟩ := hex
              exact absurd hmem (hm.2 addr)
            · intro hr
              exact absurd hc hr.1
          · intro hne
            exact absurd hc hne
        · have heq : EvmChaincode.Invoke w [arg0, arg1] =
              EvmChaincode.invokeContract w ⟨[], none⟩ caller ⟨c, hsize⟩
                (w.nonce caller w.getTxID) arg1 input := by
            rw [h2, hcl, if_neg (fun h => hc (hz.mp h))]
          have hm := invoke_marks w ⟨[], none⟩ caller ⟨c, hsize⟩ (w.nonce caller w.getTxID)
            arg1 input
          refine ⟨?_, ?_, ?_, ?_⟩
          · rw [heq]
            simp only [if_neg hc]
          · rw [heq]
            constructor
            · intro hex
              obtain ⟨addr, hmem⟩ := hex
              exact absurd hmem (hm.2 addr)
            · intro hr
              exact absurd hr.1 hc
          · rw [heq]
            exact ⟨fun _ => ⟨hc, ⟨caller, rfl⟩, ⟨input, rfl⟩⟩, fun _ => ⟨_, hm.1⟩⟩
          · intro _ _ _
            rw [heq]
            exact hm.1
  · intro hsize
    rw [h2]
    unfold EvmChaincode.invokeTx
    rw [if_neg (str_ne_getCode arg0 _ hvalid)]
    have hcallee : crypto.AddressFromBytes c = .error ⟨c⟩ := by
      unfold crypto.AddressFromBytes
      rw [dif_neg hsize]
    simp only [hvalid, hcallee]

/-- Witness of C10: the sample deployment takes the deploy branch, the call of the contract
at `0xABABABAB00...00` takes the call branch and reads the code at the decoded address, and
the same callee in mixed case gives the same run. -/
theorem callee_address_selects_branch_witness :
    (∃ addr, Effect.createAccount addr ∈
        (EvmChaincode.Invoke (sampleWorld [sampleLog] (some [1]) none (none, none))
          deployRequest).trace) ∧
      Effect.getCode ⟨[0xab, 0xab, 0xab, 0xab] ++ List.replicate 16 0, by decide⟩ ∈
        (EvmChaincode.Invoke (sampleWorld [sampleLog] (some [1]) none (none, none))
          [.ofBytes upperAddressHex, .ofBytes transferInput]).trace ∧
      EvmChaincode.Invoke (sampleWorld [sampleLog] (some [1]) none (none, none))
          [.ofBytes mixedAddressHex, .ofBytes transferInput] =
        EvmChaincode.Invoke (sampleWorld [sampleLog] (some [1]) none (none, none))
          [.ofBytes upperAddressHex, .ofBytes transferInput] :=
  ⟨((callee_address_selects_branch (sampleWorld [sampleLog] (some [1]) none (none, none))
      (.ofBytes zeroAddressHex) (.ofBytes zeroAddressHex) (.ofBytes transferInput)
      (List.replicate 20 0) (by decide) rfl).2.2.2.1 (by decide)).2.1.mpr
      ⟨rfl, ⟨sampleAddress 0x11, by decide⟩, ⟨[0xa9, 0x05, 0x9c, 0xbb, 0], by decide⟩⟩,
    ((callee_address_selects_branch (sampleWorld [sampleLog] (some [1]) none (none, none))
      (.ofBytes upperAddressHex) (.ofBytes mixedAddressHex) (.ofBytes transferInput)
      ([0xab, 0xab, 0xab, 0xab] ++ List.replicate 16 0) (by decide) (by decide)).2.2.2.1
      (by decide)).2.2.2 (by decide) ⟨sampleAddress 0x11, by decide⟩
      ⟨[0xa9, 0x05, 0x9c, 0xbb, 0], by decide⟩,
    (callee_address_selects_branch (sampleWorld [sampleLog] (some [1]) none (none, none))
      (.ofBytes upperAddressHex) (.ofBytes mixedAddressHex) (.ofBytes transferInput)
      ([0xab, 0xab, 0xab, 0xab] ++ List.replicate 16 0) (by decide) (by decide)).2.2.1⟩

end Evmcc
